import Mathlib

/-!
Verification development for the data-migration subsystem of the memora
backend (`src/backend/routers/migration.py` together with the entity
declarations in `src/backend/model.py`).

Modelling conventions (shallow embedding):

* Each SQLAlchemy table becomes a Lean structure of its columns; the
  datastore is a `Store` of per-table lists (list order = row order).
* Timestamps (`DateTime` columns) are modelled as `Nat`; `isoformat`
  serialization is treated as the identity, so a document timestamp is
  `Option Nat` (absent / `null` collapse to `none`).
* A JSON import document (`import_data : dict`) becomes `Doc`: each
  top-level key is an `Option (List _)` (`none` = key absent, which the
  code skips), and each record is a structure of `Option` fields —
  `none` models an absent key, so that `rec["k"]` raises (`.keyError`)
  while `rec.get("k")` yields `none`.  For `CollectionDetail.value` the
  document field is `Option (Option String)` because the column is
  nullable and the code uses `detail_data["value"]` (key must exist,
  value may be SQL `NULL`).
* `db.execute` of a sqlite `INSERT ... ON CONFLICT` is modelled by
  `stepT`: NOT-NULL checks fire first (sqlite builds the record before
  probing indexes), then the primary-key conflict takes the
  `DO UPDATE` / `DO NOTHING` branch, and a remaining violation of a
  secondary UNIQUE constraint is a hard `.unique` error.  Foreign keys
  are not enforced (sqlite default: `foreign_keys` pragma is off).
* Every `db.execute` emits an `Event` (table kind, record id); the
  transaction is the explicit threading of `Store`, with `commit` /
  `rollback` realised by `importRun` returning either the new store or
  the untouched original.
-/

/-- The polymorphic like-target tag (`model.AssetType`). -/
inductive AssetType where
  | post
  | comment
deriving DecidableEq, Repr

/-- Row of the `users` table (`model.User`). -/
structure UserRow where
  id : String
  username : String
  email : String
  password_hash : String
  created_at : Nat
  updated_at : Nat
deriving DecidableEq, Repr

/-- Row of the `categories` table (`model.Category`); note it has no
timestamp columns. -/
structure CategoryRow where
  id : String
  user_id : String
  name : String
  emoji : Option String
  knowledge_base_id : Option String
deriving DecidableEq, Repr

/-- Row of the `collections` table (`model.Collection`). -/
structure CollectionRow where
  id : String
  user_id : String
  category_id : Option String
  tags : Option String
  created_at : Nat
  updated_at : Nat
deriving DecidableEq, Repr

/-- Row of the `collection_details` table (`model.CollectionDetail`). -/
structure DetailRow where
  id : String
  collection_id : String
  key : String
  value : Option String
  created_at : Nat
  updated_at : Nat
deriving DecidableEq, Repr

/-- Row of the `attachments` table (`model.Attachment`); it has a
`created_at` column but no `updated_at`. -/
structure AttachmentRow where
  id : String
  user_id : String
  url : String
  description : Option String
  created_at : Nat
deriving DecidableEq, Repr

/-- Row of the `posts` table (`model.Post`). -/
structure PostRow where
  id : String
  user_id : String
  refer_collection_id : String
  description : Option String
  created_at : Nat
  updated_at : Nat
deriving DecidableEq, Repr

/-- Row of the `comments` table (`model.Comment`). -/
structure CommentRow where
  id : String
  post_id : String
  user_id : String
  content : String
  created_at : Nat
  updated_at : Nat
deriving DecidableEq, Repr

/-- Row of the `likes` table (`model.Like`); no `updated_at` column. -/
structure LikeRow where
  id : String
  user_id : String
  asset_id : String
  asset_type : AssetType
  created_at : Nat
deriving DecidableEq, Repr

/-- The relational datastore: one list of rows per table. -/
structure Store where
  users : List UserRow
  categories : List CategoryRow
  collections : List CollectionRow
  collection_details : List DetailRow
  attachments : List AttachmentRow
  posts : List PostRow
  comments : List CommentRow
  likes : List LikeRow
deriving DecidableEq, Repr

/-- Document record for a user (fields the importer reads; the exporter
additionally emits derived constants `full_name`, `bio`, `avatar_url`
and timestamps, which the importer never reads). -/
structure UserDoc where
  id : Option String
  username : Option String
  email : Option String
deriving DecidableEq, Repr

/-- Document record for a category. -/
structure CategoryDoc where
  id : Option String
  user_id : Option String
  name : Option String
  emoji : Option String
  knowledge_base_id : Option String
deriving DecidableEq, Repr

/-- Document record for a collection. -/
structure CollectionDoc where
  id : Option String
  user_id : Option String
  category_id : Option String
  tags : Option String
  created_at : Option Nat
  updated_at : Option Nat
deriving DecidableEq, Repr

/-- Document record for a collection detail.  `value` is doubly
optional: the outer `Option` is key presence (`detail_data["value"]`
raises `KeyError` when absent), the inner one is SQL `NULL`. -/
structure DetailDoc where
  id : Option String
  collection_id : Option String
  key : Option String
  value : Option (Option String)
  created_at : Option Nat
  updated_at : Option Nat
deriving DecidableEq, Repr

/-- Document record for an attachment: the document schema calls the
url `file_path` and the description `filename`. -/
structure AttachmentDoc where
  id : Option String
  user_id : Option String
  filename : Option String
  file_path : Option String
  created_at : Option Nat
deriving DecidableEq, Repr

/-- Document record for a post: the document schema calls the
description `content` and the referred collection `collection_id`. -/
structure PostDoc where
  id : Option String
  user_id : Option String
  collection_id : Option String
  content : Option String
  created_at : Option Nat
  updated_at : Option Nat
deriving DecidableEq, Repr

/-- Document record for a comment. -/
structure CommentDoc where
  id : Option String
  post_id : Option String
  user_id : Option String
  content : Option String
  created_at : Option Nat
  updated_at : Option Nat
deriving DecidableEq, Repr

/-- Document record for a like. -/
structure LikeDoc where
  id : Option String
  user_id : Option String
  asset_id : Option String
  asset_type : Option AssetType
  created_at : Option Nat
deriving DecidableEq, Repr

/-- An import/export document (`import_data : dict`): each top-level
key may be absent (`none`), which the importer treats as "nothing of
that type". -/
structure Doc where
  users : Option (List UserDoc)
  categories : Option (List CategoryDoc)
  collections : Option (List CollectionDoc)
  collection_details : Option (List DetailDoc)
  attachments : Option (List AttachmentDoc)
  posts : Option (List PostDoc)
  comments : Option (List CommentDoc)
  likes : Option (List LikeDoc)
deriving DecidableEq, Repr

/-- Table kinds, used to tag the write events of an import. -/
inductive TableK where
  | users
  | categories
  | collections
  | collection_details
  | attachments
  | posts
  | comments
  | likes
deriving DecidableEq, Repr

/-- One `db.execute` performed by the importer: which table and which
record id the executed statement targeted. -/
structure Event where
  table : TableK
  rid : String
deriving DecidableEq, Repr

/-- Failure modes of a single imported record: a missing required
dictionary key (Python `KeyError`), a NOT-NULL violation, or a
violation of a secondary UNIQUE constraint not covered by the
statement's `ON CONFLICT` clause. -/
inductive ImportErr where
  | keyError
  | notNull
  | unique
deriving DecidableEq, Repr

/-- Table description driving the generic sqlite upsert
(`INSERT ... ON CONFLICT(id) DO UPDATE`): row/document key accessors,
the insert-row builder `mk` (validating required keys and NOT-NULL
columns), the `DO UPDATE SET` assignment `set` (reading its values from
the built insert row and the current clock), and the secondary UNIQUE
key `sec` (`none` for tables without one). -/
structure Tab (ρ : Type) (δ : Type) where
  key : ρ → String
  dkey : δ → Option String
  mkr : δ → Except ImportErr ρ
  set : Nat → ρ → ρ → ρ
  sec : ρ → Option (String × String)
  tk : TableK

/-- Whether two rows collide on the secondary UNIQUE key. -/
def secClash (sec : ρ → Option (String × String)) (a b : ρ) : Bool :=
  match sec a, sec b with
  | some p, some q => p == q
  | _, _ => false

/-- One record of a sqlite upsert batch: build the insert row (raising
`KeyError` / NOT-NULL first), then either take the `DO UPDATE` branch
on a primary-key conflict or insert, erroring on a secondary UNIQUE
violation in both branches. -/
def stepT (T : Tab ρ δ) (now : Nat) (tbl : List ρ) (d : δ) :
    Except ImportErr (List ρ × List Event) :=
  match T.mkr d with
  | .error e => .error e
  | .ok r =>
    match tbl.find? (fun x => T.key x == T.key r) with
    | some x₀ =>
      if tbl.any (fun y => (T.key y != T.key r) && secClash T.sec y (T.set now r x₀)) then
        .error .unique
      else
        .ok (tbl.map (fun x => if T.key x == T.key r then T.set now r x else x),
             [⟨T.tk, T.key r⟩])
    | none =>
      if tbl.any (fun y => secClash T.sec y r) then
        .error .unique
      else
        .ok (tbl ++ [r], [⟨T.tk, T.key r⟩])

/-- Run a per-record step over a batch, accumulating the write events;
the first failing record aborts the whole batch. -/
def runList (step : α → δ → Except ImportErr (α × List Event)) :
    α → List δ → Except ImportErr (α × List Event)
  | a, [] => .ok (a, [])
  | a, d :: ds =>
    match step a d with
    | .error e => .error e
    | .ok (a', evs) =>
      match runList step a' ds with
      | .error e => .error e
      | .ok (a'', evs') => .ok (a'', evs ++ evs')

/-- The users branch of `import_data`: a record whose `id` does not
match the authenticated caller is skipped without executing anything;
a matching record updates `username`, `email` and `updated_at` on the
caller's row (an `UPDATE` matching no row executes but changes
nothing), subject to the `username`/`email` UNIQUE constraints. -/
def userStep (callerId : String) (now : Nat) (tbl : List UserRow) (d : UserDoc) :
    Except ImportErr (List UserRow × List Event) :=
  match d.id with
  | none => .error .keyError
  | some i =>
    if i == callerId then
      match d.username, d.email with
      | some un, some em =>
        if tbl.any (fun x => x.id == i) then
          if tbl.any (fun y => (y.id != i) && (y.username == un || y.email == em)) then
            .error .unique
          else
            .ok (tbl.map (fun x =>
                   if x.id == i then { x with username := un, email := em, updated_at := now }
                   else x),
                 [⟨.users, i⟩])
        else
          .ok (tbl, [⟨.users, i⟩])
      | _, _ => .error .keyError
    else
      .ok (tbl, [])

/-- The likes branch of `import_data`: `ON CONFLICT DO NOTHING` with no
conflict target, so a conflict on either the primary key or the
`(user_id, asset_id, asset_type)` UNIQUE constraint silently drops the
record; NOT-NULL still errors. -/
def likeStep (tbl : List LikeRow) (d : LikeDoc) :
    Except ImportErr (List LikeRow × List Event) :=
  match d.id, d.user_id, d.asset_id, d.asset_type with
  | some i, some uid, some aid, some ty =>
    match d.created_at with
    | none => .error .notNull
    | some ca =>
      if tbl.any (fun x => x.id == i ||
            (x.user_id == uid && x.asset_id == aid && x.asset_type == ty)) then
        .ok (tbl, [⟨.likes, i⟩])
      else
        .ok (tbl ++ [⟨i, uid, aid, ty, ca⟩], [⟨.likes, i⟩])
  | _, _, _, _ => .error .keyError

/-- Upsert description of the categories branch: required keys `id`,
`user_id`, `name`; `DO UPDATE SET` covers `name`, `emoji`,
`knowledge_base_id` (no timestamp column exists); secondary UNIQUE key
`(user_id, name)`. -/
def catTab : Tab CategoryRow CategoryDoc where
  key := (·.id)
  dkey := (·.id)
  mkr := fun d =>
    match d.id, d.user_id, d.name with
    | some i, some uid, some nm => .ok ⟨i, uid, nm, d.emoji, d.knowledge_base_id⟩
    | _, _, _ => .error .keyError
  set := fun _ r x => { x with name := r.name, emoji := r.emoji,
                               knowledge_base_id := r.knowledge_base_id }
  sec := fun x => some (x.user_id, x.name)
  tk := .categories

/-- Upsert description of the collections branch: required keys `id`,
`user_id`; NOT-NULL timestamps; `DO UPDATE SET` covers `category_id`,
`tags` and refreshes `updated_at`. -/
def collTab : Tab CollectionRow CollectionDoc where
  key := (·.id)
  dkey := (·.id)
  mkr := fun d =>
    match d.id, d.user_id with
    | some i, some uid =>
      match d.created_at, d.updated_at with
      | some ca, some ua => .ok ⟨i, uid, d.category_id, d.tags, ca, ua⟩
      | _, _ => .error .notNull
    | _, _ => .error .keyError
  set := fun now r x => { x with category_id := r.category_id, tags := r.tags,
                                 updated_at := now }
  sec := fun _ => none
  tk := .collections

/-- Upsert description of the collection-details branch: required keys
`id`, `collection_id`, `key`, `value`; NOT-NULL timestamps;
`DO UPDATE SET` covers `value` and refreshes `updated_at`; secondary
UNIQUE key `(collection_id, key)`. -/
def detTab : Tab DetailRow DetailDoc where
  key := (·.id)
  dkey := (·.id)
  mkr := fun d =>
    match d.id, d.collection_id, d.key, d.value with
    | some i, some ci, some k, some v =>
      match d.created_at, d.updated_at with
      | some ca, some ua => .ok ⟨i, ci, k, v, ca, ua⟩
      | _, _ => .error .notNull
    | _, _, _, _ => .error .keyError
  set := fun now r x => { x with value := r.value, updated_at := now }
  sec := fun x => some (x.collection_id, x.key)
  tk := .collection_details

/-- Upsert description of the attachments branch: required keys `id`,
`user_id`, `file_path` (stored as `url`); `filename` defaults to the
empty string and is stored as `description`; NOT-NULL `created_at`;
`DO UPDATE SET` covers `url` and `description` only (the table has no
`updated_at` column). -/
def attTab : Tab AttachmentRow AttachmentDoc where
  key := (·.id)
  dkey := (·.id)
  mkr := fun d =>
    match d.id, d.user_id, d.file_path with
    | some i, some uid, some fp =>
      match d.created_at with
      | some ca => .ok ⟨i, uid, fp, some (d.filename.getD ""), ca⟩
      | none => .error .notNull
    | _, _, _ => .error .keyError
  set := fun _ r x => { x with url := r.url, description := r.description }
  sec := fun _ => none
  tk := .attachments

/-- Upsert description of the posts branch: required keys `id`,
`user_id`, `collection_id` (stored as `refer_collection_id`); `content`
defaults to the empty string and is stored as `description`; NOT-NULL
timestamps; `DO UPDATE SET` covers `description` and refreshes
`updated_at`. -/
def postTab : Tab PostRow PostDoc where
  key := (·.id)
  dkey := (·.id)
  mkr := fun d =>
    match d.id, d.user_id, d.collection_id with
    | some i, some uid, some ci =>
      match d.created_at, d.updated_at with
      | some ca, some ua => .ok ⟨i, uid, ci, some (d.content.getD ""), ca, ua⟩
      | _, _ => .error .notNull
    | _, _, _ => .error .keyError
  set := fun now r x => { x with description := r.description, updated_at := now }
  sec := fun _ => none
  tk := .posts

/-- Upsert description of the comments branch: required keys `id`,
`post_id`, `user_id`, `content`; NOT-NULL timestamps; `DO UPDATE SET`
covers `content` and refreshes `updated_at`. -/
def commTab : Tab CommentRow CommentDoc where
  key := (·.id)
  dkey := (·.id)
  mkr := fun d =>
    match d.id, d.post_id, d.user_id, d.content with
    | some i, some pi', some uid, some ct =>
      match d.created_at, d.updated_at with
      | some ca, some ua => .ok ⟨i, pi', uid, ct, ca, ua⟩
      | _, _ => .error .notNull
    | _, _, _, _ => .error .keyError
  set := fun now r x => { x with content := r.content, updated_at := now }
  sec := fun _ => none
  tk := .comments

/-- The body of `import_data` (`migration.py`, lines 222–359): process
the document's entity lists in the order the code executes them —
users, categories, collections, collection details, attachments, posts,
comments, likes — threading the pending transaction state and
collecting the write events; the first error aborts. -/
def importTables (callerId : String) (now : Nat) (d : Doc) (s : Store) :
    Except ImportErr (Store × List Event) :=
  match runList (userStep callerId now) s.users (d.users.getD []) with
  | .error e => .error e
  | .ok (us, e1) =>
  match runList (stepT catTab now) s.categories (d.categories.getD []) with
  | .error e => .error e
  | .ok (cs, e2) =>
  match runList (stepT collTab now) s.collections (d.collections.getD []) with
  | .error e => .error e
  | .ok (cls, e3) =>
  match runList (stepT detTab now) s.collection_details (d.collection_details.getD []) with
  | .error e => .error e
  | .ok (dts, e4) =>
  match runList (stepT attTab now) s.attachments (d.attachments.getD []) with
  | .error e => .error e
  | .ok (ats, e5) =>
  match runList (stepT postTab now) s.posts (d.posts.getD []) with
  | .error e => .error e
  | .ok (ps, e6) =>
  match runList (stepT commTab now) s.comments (d.comments.getD []) with
  | .error e => .error e
  | .ok (cms, e7) =>
  match runList likeStep s.likes (d.likes.getD []) with
  | .error e => .error e
  | .ok (ls, e8) =>
    .ok (⟨us, cs, cls, dts, ats, ps, cms, ls⟩,
         e1 ++ (e2 ++ (e3 ++ (e4 ++ (e5 ++ (e6 ++ (e7 ++ e8)))))))

/-- The `/migration/import` route: commit the pending state on success,
roll the transaction back on any failure.  Returns the committed store
and whether the call succeeded (`True` = HTTP success response). -/
def importRun (callerId : String) (now : Nat) (d : Doc) (s : Store) :
    Store × Bool :=
  match importTables callerId now d s with
  | .ok (s', _) => (s', true)
  | .error _ => (s, false)

/-- Export projection of a user row (the exporter additionally emits
the derived constants `full_name`, `bio`, `avatar_url` and the
timestamps, none of which the importer reads). -/
def userToDoc (u : UserRow) : UserDoc :=
  ⟨some u.id, some u.username, some u.email⟩

/-- Export projection of a category row. -/
def catToDoc (c : CategoryRow) : CategoryDoc :=
  ⟨some c.id, some c.user_id, some c.name, c.emoji, c.knowledge_base_id⟩

/-- Export projection of a collection row. -/
def collToDoc (c : CollectionRow) : CollectionDoc :=
  ⟨some c.id, some c.user_id, c.category_id, c.tags, some c.created_at, some c.updated_at⟩

/-- Export projection of a collection-detail row. -/
def detToDoc (d : DetailRow) : DetailDoc :=
  ⟨some d.id, some d.collection_id, some d.key, some d.value,
   some d.created_at, some d.updated_at⟩

/-- Export projection of an attachment row: `filename` is
`description or ""` and `file_path` is the url. -/
def attToDoc (a : AttachmentRow) : AttachmentDoc :=
  ⟨some a.id, some a.user_id, some (a.description.getD ""), some a.url, some a.created_at⟩

/-- Export projection of a post row: `content` is `description or ""`
and `collection_id` is `refer_collection_id`. -/
def postToDoc (p : PostRow) : PostDoc :=
  ⟨some p.id, some p.user_id, some p.refer_collection_id,
   some (p.description.getD ""), some p.created_at, some p.updated_at⟩

/-- Export projection of a comment row. -/
def commToDoc (c : CommentRow) : CommentDoc :=
  ⟨some c.id, some c.post_id, some c.user_id, some c.content,
   some c.created_at, some c.updated_at⟩

/-- Export projection of a like row. -/
def likeToDoc (l : LikeRow) : LikeDoc :=
  ⟨some l.id, some l.user_id, some l.asset_id, some l.asset_type, some l.created_at⟩

/-- The `/migration/export` route (`migration.py`, lines 30–199): a
read-only projection of the authenticated caller's subgraph into the
document schema.  `current_user` is the caller's row; categories,
collections, posts, attachments and likes are selected by
`user_id = caller`, collection details by membership of their
`collection_id` in the caller's collections, comments by membership of
their `post_id` in the caller's posts. -/
def exportDoc (u : UserRow) (s : Store) : Doc :=
  let colls := s.collections.filter (fun c => c.user_id == u.id)
  let cids := colls.map (·.id)
  let posts := s.posts.filter (fun p => p.user_id == u.id)
  let pids := posts.map (·.id)
  { users := some [userToDoc u]
    categories := some ((s.categories.filter (fun c => c.user_id == u.id)).map catToDoc)
    collections := some (colls.map collToDoc)
    collection_details := some ((s.collection_details.filter
        (fun dd => cids.contains dd.collection_id)).map detToDoc)
    attachments := some ((s.attachments.filter (fun a => a.user_id == u.id)).map attToDoc)
    posts := some (posts.map postToDoc)
    comments := some ((s.comments.filter (fun c => pids.contains c.post_id)).map commToDoc)
    likes := some ((s.likes.filter (fun l => l.user_id == u.id)).map likeToDoc) }

/-- A fresh target store containing only the authenticated caller's own
user row (importing requires an authenticated user on the target). -/
def freshStore (u : UserRow) : Store :=
  ⟨[u], [], [], [], [], [], [], []⟩

/-- The uniqueness invariants the schema's PRIMARY KEY and UNIQUE
constraints guarantee for a well-formed store: distinct primary keys in
every table, distinct usernames and emails, distinct `(user_id, name)`
per category, distinct `(collection_id, key)` per collection detail and
distinct `(user_id, asset_id, asset_type)` per like. -/
def WF (s : Store) : Prop :=
  (s.users.map (·.id)).Nodup ∧
  (s.users.map (·.username)).Nodup ∧
  (s.users.map (·.email)).Nodup ∧
  (s.categories.map (·.id)).Nodup ∧
  (s.categories.map (fun c => (c.user_id, c.name))).Nodup ∧
  (s.collections.map (·.id)).Nodup ∧
  (s.collection_details.map (·.id)).Nodup ∧
  (s.collection_details.map (fun d => (d.collection_id, d.key))).Nodup ∧
  (s.attachments.map (·.id)).Nodup ∧
  (s.posts.map (·.id)).Nodup ∧
  (s.comments.map (·.id)).Nodup ∧
  (s.likes.map (·.id)).Nodup ∧
  (s.likes.map (fun l => (l.user_id, l.asset_id, l.asset_type))).Nodup

/-- The document-schema view of one user's subgraph: for every record
owned (directly or transitively) by the user, the fields the document
schema defines for it — category names/emojis/references, collection
category references and tags, collection-detail keys and values, post
contents and collection references, comment contents, attachment urls
and descriptions, likes, and the user's own username and email.
Timestamps are not part of this view. -/
structure Snap where
  users : List (String × String × String)
  categories : List (String × String × Option String × Option String)
  collections : List (String × Option String × Option String)
  collection_details : List (String × String × String × Option String)
  attachments : List (String × String × String)
  posts : List (String × String × String)
  comments : List (String × String × String)
  likes : List (String × String × String × AssetType)
deriving DecidableEq, Repr

/-- Compute the document-schema view of user `uid` in store `s`;
`description or ""` mirrors how the export schema projects nullable
text fields. -/
def snap (uid : String) (s : Store) : Snap :=
  let colls := s.collections.filter (fun c => c.user_id == uid)
  let cids := colls.map (·.id)
  let posts := s.posts.filter (fun p => p.user_id == uid)
  let pids := posts.map (·.id)
  { users := (s.users.filter (fun x => x.id == uid)).map (fun x => (x.id, x.username, x.email))
    categories := (s.categories.filter (fun c => c.user_id == uid)).map
      (fun c => (c.id, c.name, c.emoji, c.knowledge_base_id))
    collections := colls.map (fun c => (c.id, c.category_id, c.tags))
    collection_details := (s.collection_details.filter
        (fun d => cids.contains d.collection_id)).map
      (fun d => (d.id, d.collection_id, d.key, d.value))
    attachments := (s.attachments.filter (fun a => a.user_id == uid)).map
      (fun a => (a.id, a.url, a.description.getD ""))
    posts := posts.map (fun p => (p.id, p.refer_collection_id, p.description.getD ""))
    comments := (s.comments.filter (fun c => pids.contains c.post_id)).map
      (fun c => (c.id, c.post_id, c.content))
    likes := (s.likes.filter (fun l => l.user_id == uid)).map
      (fun l => (l.id, l.user_id, l.asset_id, l.asset_type)) }

/-- Zero out the `updated_at` column of a user row. -/
def upEraseU (x : UserRow) : UserRow := { x with updated_at := 0 }

/-- Zero out the `updated_at` column of a collection row. -/
def upEraseColl (x : CollectionRow) : CollectionRow := { x with updated_at := 0 }

/-- Zero out the `updated_at` column of a collection-detail row. -/
def upEraseDet (x : DetailRow) : DetailRow := { x with updated_at := 0 }

/-- Zero out the `updated_at` column of a post row. -/
def upErasePost (x : PostRow) : PostRow := { x with updated_at := 0 }

/-- Zero out the `updated_at` column of a comment row. -/
def upEraseComm (x : CommentRow) : CommentRow := { x with updated_at := 0 }

/-- The store with every `updated_at` column zeroed out (categories,
attachments and likes have no `updated_at` column and are kept
verbatim): two stores with equal erasures agree on every column of
every row except `updated_at`. -/
def eraseTs (s : Store) : Store :=
  { s with users := s.users.map upEraseU
           collections := s.collections.map upEraseColl
           collection_details := s.collection_details.map upEraseDet
           posts := s.posts.map upErasePost
           comments := s.comments.map upEraseComm }

/-- Pairwise-distinct record ids inside each entity list of a document
(an export document always satisfies this for a well-formed store). -/
def DocIdsNodup (d : Doc) : Prop :=
  ((d.users.getD []).map (·.id)).Nodup ∧
  ((d.categories.getD []).map (·.id)).Nodup ∧
  ((d.collections.getD []).map (·.id)).Nodup ∧
  ((d.collection_details.getD []).map (·.id)).Nodup ∧
  ((d.attachments.getD []).map (·.id)).Nodup ∧
  ((d.posts.getD []).map (·.id)).Nodup ∧
  ((d.comments.getD []).map (·.id)).Nodup ∧
  ((d.likes.getD []).map (·.id)).Nodup

/-- Position of each entity type in the order the importer's code
actually processes the branches (`migration.py`, lines 222–359). -/
def codeRank : TableK → Nat
  | .users => 0
  | .categories => 1
  | .collections => 2
  | .collection_details => 3
  | .attachments => 4
  | .posts => 5
  | .comments => 6
  | .likes => 7

/-- Position of each entity type in the dependency order stated by the
specification (user → categories → collections → collection details →
posts → comments → attachments → likes). -/
def specRank : TableK → Nat
  | .users => 0
  | .categories => 1
  | .collections => 2
  | .collection_details => 3
  | .posts => 4
  | .comments => 5
  | .attachments => 6
  | .likes => 7

/-! ### Generic list and boolean-equality helpers -/

theorem beq_symm {α : Type} [BEq α] [LawfulBEq α] (a b : α) : (a == b) = (b == a) := by
  cases h : a == b
  · cases h2 : b == a
    · rfl
    · exact absurd (eq_of_beq h2).symm (fun he => by simp [he] at h)
  · rw [eq_of_beq h]
    simp

theorem nodup_keys_inj {α β : Type} {f : α → β} {l : List α}
    (h : (l.map f).Nodup) {x y : α} (hx : x ∈ l) (hy : y ∈ l) (hf : f x = f y) :
    x = y :=
  List.inj_on_of_nodup_map h hx hy hf

theorem find?_key_of_mem {α β : Type} [BEq β] [LawfulBEq β] {f : α → β} {l : List α}
    (h : (l.map f).Nodup) {x : α} (hx : x ∈ l) :
    l.find? (fun y => f y == f x) = some x := by
  induction l with
  | nil => cases hx
  | cons a t ih =>
    rw [List.map_cons, List.nodup_cons] at h
    rcases List.mem_cons.mp hx with rfl | hxt
    · simp [List.find?]
    · have hne : f a ≠ f x := fun he => h.1 (he ▸ List.mem_map_of_mem f hxt)
      have : (f a == f x) = false := by
        cases hfa : f a == f x
        · rfl
        · exact absurd (eq_of_beq hfa) hne
      simp only [List.find?, this]
      exact ih h.2 hxt

theorem pairwise_of_forall {α : Type} {R : α → α → Prop} {l : List α}
    (h : ∀ a b, R a b) : l.Pairwise R := by
  induction l with
  | nil => exact List.Pairwise.nil
  | cons a t ih => exact List.Pairwise.cons (fun b _ => h a b) ih

/-! ### Generic lemmas about the sqlite upsert machine `stepT` -/

section TabLemmas

variable {ρ δ : Type} (T : Tab ρ δ)

/-- Distinct primary keys in a table (the PRIMARY KEY invariant). -/
def KOK (tbl : List ρ) : Prop := (tbl.map T.key).Nodup

/-- No two rows of the table collide on the secondary UNIQUE key. -/
def SOK (tbl : List ρ) : Prop :=
  tbl.Pairwise (fun a b => secClash T.sec a b = false)

theorem secClash_symm (a b : ρ) : secClash T.sec a b = secClash T.sec b a := by
  unfold secClash
  cases T.sec a <;> cases T.sec b
  · rfl
  · rfl
  · rfl
  · exact beq_symm _ _

theorem noclash_of_SOK {tbl : List ρ} (hs : SOK T tbl) (hk : KOK T tbl)
    {a b : ρ} (ha : a ∈ tbl) (hb : b ∈ tbl) (hne : T.key a ≠ T.key b) :
    secClash T.sec a b = false := by
  have hab : a ≠ b := fun he => hne (he ▸ rfl)
  have hsymm : Symmetric (fun a b : ρ => secClash T.sec a b = false) := by
    intro x y hxy
    rw [secClash_symm]
    exact hxy
  exact List.Pairwise.forall hsymm hs ha hb hab

theorem stepT_ok_cases {now : Nat} {tbl : List ρ} {d : δ} {tbl' : List ρ}
    {evs : List Event} (h : stepT T now tbl d = .ok (tbl', evs)) :
    ∃ r, T.mkr d = .ok r ∧ evs = [⟨T.tk, T.key r⟩] ∧
      ((∃ x₀, tbl.find? (fun x => T.key x == T.key r) = some x₀ ∧
        (tbl.any fun y => (T.key y != T.key r) && secClash T.sec y (T.set now r x₀)) = false ∧
        tbl' = tbl.map (fun x => if T.key x == T.key r then T.set now r x else x)) ∨
       (tbl.find? (fun x => T.key x == T.key r) = none ∧
        (tbl.any fun y => secClash T.sec y r) = false ∧
        tbl' = tbl ++ [r])) := by
  unfold stepT at h
  cases hm : T.mkr d with
  | error e => rw [hm] at h; cases h
  | ok r =>
    rw [hm] at h
    dsimp only at h
    cases hf : tbl.find? (fun x => T.key x == T.key r) with
    | some x₀ =>
      rw [hf] at h
      dsimp only at h
      cases hany : tbl.any fun y => (T.key y != T.key r) && secClash T.sec y (T.set now r x₀) with
      | true => rw [hany] at h; simp at h
      | false =>
        rw [hany] at h
        simp only [Bool.false_eq_true, if_false, Except.ok.injEq, Prod.mk.injEq] at h
        exact ⟨r, rfl, h.2.symm, .inl ⟨x₀, hf, hany, h.1.symm⟩⟩
    | none =>
      rw [hf] at h
      dsimp only at h
      cases hany : tbl.any fun y => secClash T.sec y r with
      | true => rw [hany] at h; simp at h
      | false =>
        rw [hany] at h
        simp only [Bool.false_eq_true, if_false, Except.ok.injEq, Prod.mk.injEq] at h
        exact ⟨r, rfl, h.2.symm, .inr ⟨hf, hany, h.1.symm⟩⟩

theorem stepT_keys (hkeyset : ∀ n r x, T.key (T.set n r x) = T.key x)
    {now : Nat} {tbl : List ρ} {d : δ} {tbl' : List ρ} {evs : List Event}
    (h : stepT T now tbl d = .ok (tbl', evs)) :
    tbl'.map T.key = tbl.map T.key ∨
      ∃ k, tbl'.map T.key = tbl.map T.key ++ [k] ∧ k ∉ tbl.map T.key := by
  obtain ⟨r, _, _, hcase | hcase⟩ := stepT_ok_cases T h
  · left
    obtain ⟨x₀, _, _, htbl⟩ := hcase
    subst htbl
    rw [List.map_map]
    refine List.map_congr_left fun x _ => ?_
    by_cases hx : (T.key x == T.key r) = true
    · simp only [Function.comp_apply, hx, if_true, hkeyset]
    · simp only [Function.comp_apply, Bool.not_eq_true] at hx
      simp only [Function.comp_apply, hx, Bool.false_eq_true, if_false]
  · right
    obtain ⟨hfind, _, htbl⟩ := hcase
    subst htbl
    refine ⟨T.key r, by simp, fun hmem => ?_⟩
    obtain ⟨x, hx, hkx⟩ := List.mem_map.mp hmem
    exact (List.find?_eq_none.mp hfind x hx) (beq_iff_eq.mpr hkx)

theorem stepT_KOK (hkeyset : ∀ n r x, T.key (T.set n r x) = T.key x)
    {now : Nat} {tbl : List ρ} {d : δ} {tbl' : List ρ} {evs : List Event}
    (h : stepT T now tbl d = .ok (tbl', evs)) (hk : KOK T tbl) : KOK T tbl' := by
  rcases stepT_keys T hkeyset h with he | ⟨k, he, hnk⟩
  · unfold KOK
    rw [he]
    exact hk
  · unfold KOK
    rw [he, List.nodup_append]
    exact ⟨hk, List.nodup_singleton k, by
      intro a ha hb
      rcases List.mem_singleton.mp hb
      exact hnk ha⟩

theorem stepT_SOK (hkeyset : ∀ n r x, T.key (T.set n r x) = T.key x)
    {now : Nat} {tbl : List ρ} {d : δ} {tbl' : List ρ} {evs : List Event}
    (h : stepT T now tbl d = .ok (tbl', evs)) (hk : KOK T tbl) (hs : SOK T tbl) :
    SOK T tbl' := by
  obtain ⟨r, _, _, hcase | hcase⟩ := stepT_ok_cases T h
  · obtain ⟨x₀, hfind, hchk, htbl⟩ := hcase
    have hx₀mem : x₀ ∈ tbl := List.mem_of_find?_eq_some hfind
    have hx₀key : T.key x₀ = T.key r := by
      have h2 := List.find?_some hfind
      simp only [beq_iff_eq] at h2
      exact h2
    have hchk' : ∀ y ∈ tbl, T.key y ≠ T.key r →
        secClash T.sec y (T.set now r x₀) = false := by
      intro y hy hne
      have := List.any_eq_false.mp hchk y hy
      cases hcl : secClash T.sec y (T.set now r x₀)
      · rfl
      · exfalso
        apply this
        rw [hcl]
        have : (T.key y != T.key r) = true := bne_iff_ne.mpr hne
        rw [this]
        rfl
    subst htbl
    have hkeyne : tbl.Pairwise (fun a b => T.key a ≠ T.key b) := by
      have := hk
      unfold KOK at this
      rw [List.Nodup, List.pairwise_map] at this
      exact this
    rw [SOK, List.pairwise_map]
    refine List.Pairwise.imp_of_mem ?_ (hkeyne.and hs)
    intro a b ha hb hab
    obtain ⟨hne, hcl⟩ := hab
    by_cases hka : (T.key a == T.key r) = true
    · have haeq : a = x₀ := nodup_keys_inj hk ha hx₀mem (by rw [eq_of_beq hka, hx₀key])
      have hkb : (T.key b == T.key r) = false := by
        cases hkb : T.key b == T.key r
        · rfl
        · exact absurd (by rw [eq_of_beq hka, eq_of_beq hkb]) hne
      simp only [hka, if_true, hkb, Bool.false_eq_true, if_false]
      rw [secClash_symm, haeq]
      exact hchk' b hb fun he => by
        rw [he] at hkb
        simp at hkb
    · have hka' : (T.key a == T.key r) = false := by
        cases hh : T.key a == T.key r
        · rfl
        · exact absurd hh hka
      by_cases hkb : (T.key b == T.key r) = true
      · have hbeq : b = x₀ := nodup_keys_inj hk hb hx₀mem (by rw [eq_of_beq hkb, hx₀key])
        simp only [hka', Bool.false_eq_true, if_false, hkb, if_true]
        rw [hbeq]
        exact hchk' a ha fun he => by
          rw [he] at hka'
          simp at hka'
      · have hkb' : (T.key b == T.key r) = false := by
          cases hh : T.key b == T.key r
          · rfl
          · exact absurd hh hkb
        simp only [hka', hkb', Bool.false_eq_true, if_false]
        exact hcl
  · obtain ⟨hfind, hchk, htbl⟩ := hcase
    subst htbl
    rw [SOK, List.pairwise_append]
    refine ⟨hs, List.pairwise_singleton _ _, ?_⟩
    intro a ha b hb
    rcases List.mem_singleton.mp hb
    exact Bool.eq_false_iff.mpr (List.any_eq_false.mp hchk a ha)

end TabLemmas

/-! ### Generic lemmas about batch processing `runList` -/

theorem runList_cons_ok {α δ : Type}
    {step : α → δ → Except ImportErr (α × List Event)} {a : α} {d : δ} {ds : List δ}
    {a'' : α} {evs : List Event}
    (h : runList step a (d :: ds) = .ok (a'', evs)) :
    ∃ a' evs₁ evs₂, step a d = .ok (a', evs₁) ∧
      runList step a' ds = .ok (a'', evs₂) ∧ evs = evs₁ ++ evs₂ := by
  unfold runList at h
  cases hs : step a d with
  | error e => rw [hs] at h; cases h
  | ok p =>
    obtain ⟨a', evs₁⟩ := p
    rw [hs] at h
    dsimp only at h
    cases hr : runList step a' ds with
    | error e => rw [hr] at h; cases h
    | ok q =>
      obtain ⟨a₂, evs₂⟩ := q
      rw [hr] at h
      dsimp only at h
      simp only [Except.ok.injEq, Prod.mk.injEq] at h
      exact ⟨a', evs₁, evs₂, rfl, by rw [← h.1]; exact hr, h.2.symm⟩

theorem runList_cons_of {α δ : Type}
    {step : α → δ → Except ImportErr (α × List Event)} {a : α} {d : δ} {ds : List δ}
    {a' a'' : α} {evs₁ evs₂ : List Event}
    (h1 : step a d = .ok (a', evs₁)) (h2 : runList step a' ds = .ok (a'', evs₂)) :
    runList step a (d :: ds) = .ok (a'', evs₁ ++ evs₂) := by
  unfold runList
  rw [h1]
  dsimp only
  rw [h2]

theorem runList_append_ok {α δ : Type}
    {step : α → δ → Except ImportErr (α × List Event)} {l₁ l₂ : List δ}
    {a a' a'' : α} {e₁ e₂ : List Event}
    (h1 : runList step a l₁ = .ok (a', e₁)) (h2 : runList step a' l₂ = .ok (a'', e₂)) :
    runList step a (l₁ ++ l₂) = .ok (a'', e₁ ++ e₂) := by
  induction l₁ generalizing a e₁ with
  | nil =>
    unfold runList at h1
    simp only [Except.ok.injEq, Prod.mk.injEq] at h1
    rw [h1.1, ← h1.2]
    simpa using h2
  | cons d ds ih =>
    obtain ⟨b, ev₁, ev₂, hs, hr, he⟩ := runList_cons_ok h1
    subst he
    rw [List.cons_append, List.append_assoc]
    exact runList_cons_of hs (ih hr)

theorem runList_cons_err {α δ : Type}
    {step : α → δ → Except ImportErr (α × List Event)} {a : α} {d : δ} {ds : List δ}
    {e : ImportErr} (h : step a d = .error e) :
    runList step a (d :: ds) = .error e := by
  unfold runList
  rw [h]

theorem runList_cons_tail_err {α δ : Type}
    {step : α → δ → Except ImportErr (α × List Event)} {a a' : α} {d : δ} {ds : List δ}
    {evs₁ : List Event} {e : ImportErr}
    (h1 : step a d = .ok (a', evs₁)) (h2 : runList step a' ds = .error e) :
    runList step a (d :: ds) = .error e := by
  unfold runList
  rw [h1]
  dsimp only
  rw [h2]

theorem runList_err_of_mem {α δ : Type}
    {step : α → δ → Except ImportErr (α × List Event)} {bad : δ}
    (hbad : ∀ b : α, ∃ e, step b bad = .error e)
    (pre post : List δ) (a : α) :
    ∃ e, runList step a (pre ++ bad :: post) = .error e := by
  induction pre generalizing a with
  | nil =>
    obtain ⟨e, he⟩ := hbad a
    exact ⟨e, runList_cons_err he⟩
  | cons d ds ih =>
    cases hs : step a d with
    | error e => exact ⟨e, runList_cons_err hs⟩
    | ok p =>
      obtain ⟨e, he⟩ := ih p.1
      exact ⟨e, runList_cons_tail_err hs he⟩

theorem runList_events {α δ : Type}
    {step : α → δ → Except ImportErr (α × List Event)} {p : Event → Prop}
    (hstep : ∀ a d a' evs, step a d = .ok (a', evs) → ∀ e ∈ evs, p e)
    {ds : List δ} {a a' : α} {evs : List Event}
    (h : runList step a ds = .ok (a', evs)) : ∀ e ∈ evs, p e := by
  induction ds generalizing a evs with
  | nil =>
    unfold runList at h
    simp only [Except.ok.injEq, Prod.mk.injEq] at h
    rw [← h.2]
    intro e he
    cases he
  | cons d ds ih =>
    obtain ⟨b, ev₁, ev₂, hs, hr, he⟩ := runList_cons_ok h
    subst he
    intro e he
    rcases List.mem_append.mp he with h1 | h2
    · exact hstep a d b ev₁ hs e h1
    · exact ih hr e h2

theorem runList_inv {α δ : Type}
    {step : α → δ → Except ImportErr (α × List Event)} {I : α → Prop}
    (hstep : ∀ a d a' evs, step a d = .ok (a', evs) → I a → I a')
    {ds : List δ} {a a' : α} {evs : List Event}
    (h : runList step a ds = .ok (a', evs)) (h0 : I a) : I a' := by
  induction ds generalizing a evs with
  | nil =>
    unfold runList at h
    simp only [Except.ok.injEq, Prod.mk.injEq] at h
    rw [← h.1]
    exact h0
  | cons d ds ih =>
    obtain ⟨b, ev₁, ev₂, hs, hr, _⟩ := runList_cons_ok h
    exact ih hr (hstep a d b ev₁ hs h0)

/-! ### Dataflow lemmas for the upsert machine: re-import of exported
rows, import into a fresh table, and re-import after a first import -/

theorem beq_eq_false_of_ne {α : Type} [BEq α] [LawfulBEq α] {a b : α} (h : a ≠ b) :
    (a == b) = false := by
  cases hc : a == b
  · rfl
  · exact absurd (eq_of_beq hc) h

theorem secClash_right_eq {ρ : Type} (sec : ρ → Option (String × String)) {a b b' : ρ}
    (h : sec b = sec b') : secClash sec a b = secClash sec a b' := by
  unfold secClash
  rw [h]

theorem secClash_left_eq {ρ : Type} (sec : ρ → Option (String × String)) {a a' b : ρ}
    (h : sec a = sec a') : secClash sec a b = secClash sec a' b := by
  unfold secClash
  rw [h]

section TabFlows

variable {ρ δ : Type} (T : Tab ρ δ)
variable (toDoc : ρ → δ) (norm : ρ → ρ) (bump : Nat → ρ → ρ)

/-- Re-importing rows that are already present in the table (as the
same-store round trip does) touches exactly those rows with the
table's per-row update `bump` and raises no error. -/
theorem reimport_run
    (hmk : ∀ x, T.mkr (toDoc x) = .ok (norm x))
    (hkeynorm : ∀ x, T.key (norm x) = T.key x)
    (hsetself : ∀ n x, T.set n (norm x) x = bump n x)
    (hbumpkey : ∀ n x, T.key (bump n x) = T.key x)
    (hbumpsec : ∀ n x, T.sec (bump n x) = T.sec x)
    (now : Nat) (rows tbl : List ρ)
    (hk : KOK T tbl) (hs : SOK T tbl)
    (hrk : (rows.map T.key).Nodup) (hsub : ∀ x ∈ rows, x ∈ tbl) :
    runList (stepT T now) tbl (rows.map toDoc) =
      .ok (tbl.map (fun y => if rows.any (fun w => T.key w == T.key y) then bump now y else y),
           rows.map (fun x => ⟨T.tk, T.key x⟩)) := by
  induction rows generalizing tbl with
  | nil =>
    simp only [List.map_nil]
    unfold runList
    simp [List.any_nil]
  | cons x rows ih =>
    have hxtbl : x ∈ tbl := hsub x (List.mem_cons_self x rows)
    have hknodup : (List.map T.key tbl).Nodup := hk
    have hstep : stepT T now tbl (toDoc x) =
        .ok (tbl.map (fun z => if T.key z == T.key x then bump now z else z),
             [⟨T.tk, T.key x⟩]) := by
      unfold stepT
      rw [hmk x]
      dsimp only
      have hpred : (fun z => T.key z == T.key (norm x)) = (fun z => T.key z == T.key x) := by
        funext z
        rw [hkeynorm]
      rw [hpred, find?_key_of_mem hknodup hxtbl]
      dsimp only
      have hchk : (tbl.any fun y =>
          (T.key y != T.key (norm x)) && secClash T.sec y (T.set now (norm x) x)) = false := by
        rw [List.any_eq_false]
        intro y hy hcontra
        rw [Bool.and_eq_true] at hcontra
        have hne : T.key y ≠ T.key x := by
          have h1 := hcontra.1
          rw [hkeynorm] at h1
          exact bne_iff_ne.mp h1
        have hcl : secClash T.sec y (T.set now (norm x) x) = false := by
          rw [hsetself, secClash_right_eq T.sec (hbumpsec now x)]
          exact noclash_of_SOK T hs hk hy hxtbl hne
        rw [hcl] at hcontra
        exact absurd hcontra.2 (by simp)
      rw [hchk]
      simp only [Bool.false_eq_true, if_false, Except.ok.injEq, Prod.mk.injEq]
      constructor
      · refine List.map_congr_left fun z hz => ?_
        by_cases hzx : (T.key z == T.key x) = true
        · have hz_eq : z = x := nodup_keys_inj hknodup hz hxtbl (eq_of_beq hzx)
          rw [hkeynorm]
          simp only [hzx, if_true]
          rw [hz_eq, hsetself]
        · have hzx' : (T.key z == T.key x) = false := Bool.eq_false_iff.mpr hzx
          rw [hkeynorm]
          simp [hzx']
      · rw [hkeynorm]
    have hk₁ : KOK T (tbl.map (fun z => if T.key z == T.key x then bump now z else z)) := by
      unfold KOK
      rw [List.map_map]
      have : (T.key ∘ fun z => if T.key z == T.key x then bump now z else z) = T.key := by
        funext z
        by_cases hzx : (T.key z == T.key x) = true
        · simp only [Function.comp_apply]
          rw [if_pos hzx, hbumpkey]
        · simp only [Function.comp_apply]
          rw [if_neg hzx]
      rw [this]
      exact hk
    have hs₁ : SOK T (tbl.map (fun z => if T.key z == T.key x then bump now z else z)) := by
      unfold SOK
      rw [List.pairwise_map]
      refine List.Pairwise.imp ?_ hs
      intro a b hab
      have ha : T.sec (if T.key a == T.key x then bump now a else a) = T.sec a := by
        by_cases hc : (T.key a == T.key x) = true
        · rw [if_pos hc, hbumpsec]
        · rw [if_neg hc]
      have hb : T.sec (if T.key b == T.key x then bump now b else b) = T.sec b := by
        by_cases hc : (T.key b == T.key x) = true
        · rw [if_pos hc, hbumpsec]
        · rw [if_neg hc]
      rw [secClash_left_eq T.sec ha, secClash_right_eq T.sec hb]
      exact hab
    have hsub₁ : ∀ w ∈ rows,
        w ∈ tbl.map (fun z => if T.key z == T.key x then bump now z else z) := by
      intro w hw
      have hwtbl : w ∈ tbl := hsub w (List.mem_cons_of_mem x hw)
      have hwx : (T.key w == T.key x) = false := by
        refine beq_eq_false_of_ne fun he => ?_
        rw [List.map_cons, List.nodup_cons] at hrk
        exact hrk.1 (he ▸ List.mem_map_of_mem T.key hw)
      refine List.mem_map.mpr ⟨w, hwtbl, ?_⟩
      rw [hwx]
      simp
    have hrk₁ : (rows.map T.key).Nodup := by
      rw [List.map_cons, List.nodup_cons] at hrk
      exact hrk.2
    have hrest := ih _ hk₁ hs₁ hrk₁ hsub₁
    have hcomb := runList_cons_of hstep hrest
    rw [List.map_cons, hcomb]
    have hmapeq :
        List.map (fun y => if (rows.any fun w => T.key w == T.key y) = true then bump now y else y)
          (List.map (fun z => if (T.key z == T.key x) = true then bump now z else z) tbl) =
        List.map (fun y => if ((x :: rows).any fun w => T.key w == T.key y) = true then bump now y else y)
          tbl := by
      rw [List.map_map]
      refine List.map_congr_left fun z hz => ?_
      simp only [Function.comp_apply]
      by_cases hzx : (T.key z == T.key x) = true
      · have hz_eq : T.key z = T.key x := eq_of_beq hzx
        have hbz : (rows.any fun w => T.key w == T.key (bump now z)) = false := by
          rw [List.any_eq_false]
          intro w hw hcontra
          have : T.key w = T.key x := by
            rw [eq_of_beq hcontra, hbumpkey, hz_eq]
          rw [List.map_cons, List.nodup_cons] at hrk
          exact hrk.1 (this ▸ List.mem_map_of_mem T.key hw)
        rw [if_pos hzx, if_neg (ne_true_of_eq_false hbz)]
        have hcond : ((x :: rows).any fun w => T.key w == T.key z) = true := by
          rw [List.any_cons]
          have : (T.key x == T.key z) = true := beq_iff_eq.mpr hz_eq.symm
          rw [this]
          rfl
        rw [if_pos hcond]
      · have hzx' : (T.key z == T.key x) = false := Bool.eq_false_iff.mpr hzx
        rw [if_neg hzx]
        have hxz : (T.key x == T.key z) = false := by
          refine beq_eq_false_of_ne fun he => ?_
          rw [he] at hzx'
          simp at hzx'
        have hcondeq : ((x :: rows).any fun w => T.key w == T.key z) =
            (rows.any fun w => T.key w == T.key z) := by
          rw [List.any_cons, hxz]
          rfl
        rw [hcondeq]
    rw [hmapeq]
    rfl

/-- Importing exported rows into a table that does not contain their
keys (as the fresh-store round trip does, starting from the empty
table) inserts exactly their normalised forms, in order, and raises no
error. -/
theorem fresh_run
    (hmk : ∀ x, T.mkr (toDoc x) = .ok (norm x))
    (hkeynorm : ∀ x, T.key (norm x) = T.key x)
    (now : Nat) (rows acc : List ρ)
    (hk : ((acc ++ rows.map norm).map T.key).Nodup)
    (hs : SOK T (acc ++ rows.map norm)) :
    runList (stepT T now) acc (rows.map toDoc) =
      .ok (acc ++ rows.map norm, rows.map (fun x => ⟨T.tk, T.key x⟩)) := by
  induction rows generalizing acc with
  | nil =>
    simp only [List.map_nil, List.append_nil]
    rfl
  | cons x rows ih =>
    have hstep : stepT T now acc (toDoc x) =
        .ok (acc ++ [norm x], [⟨T.tk, T.key x⟩]) := by
      unfold stepT
      rw [hmk x]
      dsimp only
      have hfind : acc.find? (fun z => T.key z == T.key (norm x)) = none := by
        rw [List.find?_eq_none]
        intro z hz hcontra
        have hzk : T.key z = T.key (norm x) := eq_of_beq hcontra
        have hmemz : T.key z ∈ List.map T.key acc := List.mem_map_of_mem T.key hz
        have hmemx : T.key (norm x) ∈ List.map T.key ((x :: rows).map norm) :=
          List.mem_map_of_mem T.key (List.mem_map_of_mem norm (List.mem_cons_self x rows))
        rw [List.map_append] at hk
        have hdisj := (List.nodup_append.mp hk).2.2
        exact hdisj hmemz (hzk ▸ hmemx)
      rw [hfind]
      dsimp only
      have hchk : (acc.any fun y => secClash T.sec y (norm x)) = false := by
        rw [List.any_eq_false]
        intro y hy hcontra
        have hcross := (List.pairwise_append.mp hs).2.2
        have hxmem : norm x ∈ (x :: rows).map norm :=
          List.mem_map_of_mem norm (List.mem_cons_self x rows)
        have := hcross y hy (norm x) hxmem
        rw [this] at hcontra
        exact Bool.false_ne_true hcontra
      rw [hchk]
      simp only [Bool.false_eq_true, if_false, Except.ok.injEq, Prod.mk.injEq]
      exact ⟨trivial, by rw [hkeynorm]⟩
    have hre : (acc ++ [norm x]) ++ rows.map norm = acc ++ (x :: rows).map norm := by
      rw [List.append_assoc]
      rfl
    have hk₁ : (((acc ++ [norm x]) ++ rows.map norm).map T.key).Nodup := by
      rw [hre]
      exact hk
    have hs₁ : SOK T ((acc ++ [norm x]) ++ rows.map norm) := by
      rw [hre]
      exact hs
    have hrest := ih (acc ++ [norm x]) hk₁ hs₁
    have hcomb := runList_cons_of hstep hrest
    rw [List.map_cons, hcomb, hre]
    rfl

end TabFlows

/-- A document record is already applied to a row: the record builds
successfully, targets the row's primary key, and updating the row with
it only refreshes the row's timestamp (`tsb`). -/
def Applied {ρ δ : Type} (T : Tab ρ δ) (tsb : Nat → ρ → ρ) (now' : Nat) (d : δ) (x : ρ) : Prop :=
  ∃ r, T.mkr d = .ok r ∧ T.key x = T.key r ∧ T.set now' r x = tsb now' x

section TabSecond

variable {ρ δ : Type} (T : Tab ρ δ)

/-- A row whose key no document of the batch targets survives the
batch unchanged. -/
theorem run_preserves_row
    (hdk : ∀ d r, T.mkr d = .ok r → T.dkey d = some (T.key r))
    {now : Nat} {docs : List δ} {tbl tbl' : List ρ} {evs : List Event}
    (h : runList (stepT T now) tbl docs = .ok (tbl', evs))
    {x : ρ} (hx : x ∈ tbl)
    (hnot : ∀ d' ∈ docs, T.dkey d' ≠ some (T.key x)) :
    x ∈ tbl' := by
  induction docs generalizing tbl evs with
  | nil =>
    unfold runList at h
    simp only [Except.ok.injEq, Prod.mk.injEq] at h
    rw [← h.1]
    exact hx
  | cons d docs ih =>
    obtain ⟨tblA, ev₁, ev₂, hstep, hrest, _⟩ := runList_cons_ok h
    have hxA : x ∈ tblA := by
      obtain ⟨r, hmkd, _, hcase | hcase⟩ := stepT_ok_cases T hstep
      · obtain ⟨x₀, _, _, htbl⟩ := hcase
        subst htbl
        have hkne : (T.key x == T.key r) = false := by
          refine beq_eq_false_of_ne fun he => ?_
          exact hnot d (List.mem_cons_self d docs) (by rw [hdk d r hmkd, he])
        refine List.mem_map.mpr ⟨x, hx, ?_⟩
        rw [if_neg (ne_true_of_eq_false hkne)]
      · obtain ⟨_, _, htbl⟩ := hcase
        subst htbl
        exact List.mem_append.mpr (.inl hx)
    exact ih hrest hxA (fun d' hd' => hnot d' (List.mem_cons_of_mem d hd'))

/-- After a successful batch over documents with pairwise-distinct ids,
every document of the batch is `Applied` to some row of the resulting
table. -/
theorem run_establishes (tsb : Nat → ρ → ρ)
    (hkeyset : ∀ n r x, T.key (T.set n r x) = T.key x)
    (hdk : ∀ d r, T.mkr d = .ok r → T.dkey d = some (T.key r))
    (hsetabsorb : ∀ n n' r x, T.set n' r (T.set n r x) = tsb n' (T.set n r x))
    (hsetinsert : ∀ n' r, T.set n' r r = tsb n' r)
    {now : Nat} (now' : Nat) {docs : List δ} {tbl tbl' : List ρ} {evs : List Event}
    (hk : KOK T tbl)
    (h : runList (stepT T now) tbl docs = .ok (tbl', evs))
    (hnd : (docs.map T.dkey).Nodup) :
    ∀ d ∈ docs, ∃ x ∈ tbl', Applied T tsb now' d x := by
  induction docs generalizing tbl evs with
  | nil =>
    intro d hd
    cases hd
  | cons d docs ih =>
    obtain ⟨tblA, ev₁, ev₂, hstep, hrest, _⟩ := runList_cons_ok h
    intro d' hd'
    rcases List.mem_cons.mp hd' with rfl | hd'tail
    · obtain ⟨r, hmkd, _, hcase | hcase⟩ := stepT_ok_cases T hstep
      · obtain ⟨x₀, hfind, _, htbl⟩ := hcase
        have hx₀mem : x₀ ∈ tbl := List.mem_of_find?_eq_some hfind
        have hx₀key : T.key x₀ = T.key r := by
          have h2 := List.find?_some hfind
          simp only [beq_iff_eq] at h2
          exact h2
        have hxNA : T.set now r x₀ ∈ tblA := by
          subst htbl
          refine List.mem_map.mpr ⟨x₀, hx₀mem, ?_⟩
          rw [if_pos (beq_iff_eq.mpr hx₀key)]
        have happ : Applied T tsb now' d' (T.set now r x₀) :=
          ⟨r, hmkd, by rw [hkeyset, hx₀key], hsetabsorb now now' r x₀⟩
        refine ⟨T.set now r x₀, ?_, happ⟩
        refine run_preserves_row T hdk hrest hxNA ?_
        intro d'' hd'' hcontra
        rw [hkeyset, hx₀key, ← hdk d' r hmkd] at hcontra
        rw [List.map_cons, List.nodup_cons] at hnd
        exact hnd.1 (hcontra ▸ List.mem_map_of_mem T.dkey hd'')
      · obtain ⟨_, _, htbl⟩ := hcase
        have hrA : r ∈ tblA := by
          subst htbl
          exact List.mem_append.mpr (.inr (List.mem_singleton.mpr rfl))
        have happ : Applied T tsb now' d' r := ⟨r, hmkd, rfl, hsetinsert now' r⟩
        refine ⟨r, ?_, happ⟩
        refine run_preserves_row T hdk hrest hrA ?_
        intro d'' hd'' hcontra
        rw [← hdk d' r hmkd] at hcontra
        rw [List.map_cons, List.nodup_cons] at hnd
        exact hnd.1 (hcontra ▸ List.mem_map_of_mem T.dkey hd'')
    · have hkA : KOK T tblA := stepT_KOK T hkeyset hstep hk
      have hndtail : (docs.map T.dkey).Nodup := by
        rw [List.map_cons, List.nodup_cons] at hnd
        exact hnd.2
      exact ih hkA hrest hndtail d' hd'tail

/-- Re-running a batch whose documents are all `Applied` to rows of the
table succeeds and only refreshes the timestamps of the targeted
rows. -/
theorem applied_run (tsb : Nat → ρ → ρ)
    (hdk : ∀ d r, T.mkr d = .ok r → T.dkey d = some (T.key r))
    (htsbkey : ∀ n x, T.key (tsb n x) = T.key x)
    (htsbsec : ∀ n x, T.sec (tsb n x) = T.sec x)
    (now' : Nat) (docs : List δ) (tbl : List ρ)
    (hk : KOK T tbl) (hs : SOK T tbl)
    (hnd : (docs.map T.dkey).Nodup)
    (happ : ∀ d ∈ docs, ∃ x ∈ tbl, Applied T tsb now' d x) :
    ∃ evs, runList (stepT T now') tbl docs =
      .ok (tbl.map (fun y =>
             if docs.any (fun dd => T.dkey dd == some (T.key y)) then tsb now' y else y),
           evs) := by
  induction docs generalizing tbl with
  | nil =>
    refine ⟨[], ?_⟩
    unfold runList
    simp [List.any_nil]
  | cons d docs ih =>
    obtain ⟨x, hxtbl, r, hmkd, hxkey, hxset⟩ := happ d (List.mem_cons_self d docs)
    have hknodup : (tbl.map T.key).Nodup := hk
    have hdkd : T.dkey d = some (T.key r) := hdk d r hmkd
    have hstep : stepT T now' tbl d =
        .ok (tbl.map (fun z => if T.key z == T.key x then tsb now' z else z),
             [⟨T.tk, T.key r⟩]) := by
      unfold stepT
      rw [hmkd]
      dsimp only
      have hpred : (fun z => T.key z == T.key r) = (fun z => T.key z == T.key x) := by
        funext z
        rw [hxkey]
      rw [hpred, find?_key_of_mem hknodup hxtbl]
      dsimp only
      have hchk : (tbl.any fun y =>
          (T.key y != T.key r) && secClash T.sec y (T.set now' r x)) = false := by
        rw [List.any_eq_false]
        intro y hy hcontra
        rw [Bool.and_eq_true] at hcontra
        have hne : T.key y ≠ T.key x := by
          have h1 := hcontra.1
          rw [← hxkey] at h1
          exact bne_iff_ne.mp h1
        have hcl : secClash T.sec y (T.set now' r x) = false := by
          rw [hxset, secClash_right_eq T.sec (htsbsec now' x)]
          exact noclash_of_SOK T hs hk hy hxtbl hne
        rw [hcl] at hcontra
        exact absurd hcontra.2 (by simp)
      rw [hchk]
      simp only [Bool.false_eq_true, if_false, Except.ok.injEq, Prod.mk.injEq]
      refine ⟨?_, trivial⟩
      refine List.map_congr_left fun z hz => ?_
      by_cases hzx : (T.key z == T.key x) = true
      · have hz_eq : z = x := nodup_keys_inj hknodup hz hxtbl (eq_of_beq hzx)
        subst hz_eq
        rw [if_pos (beq_iff_eq.mpr hxkey), if_pos (beq_iff_eq.mpr rfl), hxset]
      · have hzr : (T.key z == T.key r) = false := by
          rw [← hxkey]
          exact Bool.eq_false_iff.mpr hzx
        rw [if_neg (ne_true_of_eq_false hzr), if_neg hzx]
    have hk₁ : KOK T (tbl.map (fun z => if T.key z == T.key x then tsb now' z else z)) := by
      unfold KOK
      rw [List.map_map]
      have : (T.key ∘ fun z => if T.key z == T.key x then tsb now' z else z) = T.key := by
        funext z
        by_cases hzx : (T.key z == T.key x) = true
        · simp only [Function.comp_apply]
          rw [if_pos hzx, htsbkey]
        · simp only [Function.comp_apply]
          rw [if_neg hzx]
      rw [this]
      exact hk
    have hs₁ : SOK T (tbl.map (fun z => if T.key z == T.key x then tsb now' z else z)) := by
      unfold SOK
      rw [List.pairwise_map]
      refine List.Pairwise.imp ?_ hs
      intro a b hab
      have ha : T.sec (if T.key a == T.key x then tsb now' a else a) = T.sec a := by
        by_cases hc : (T.key a == T.key x) = true
        · rw [if_pos hc, htsbsec]
        · rw [if_neg hc]
      have hb : T.sec (if T.key b == T.key x then tsb now' b else b) = T.sec b := by
        by_cases hc : (T.key b == T.key x) = true
        · rw [if_pos hc, htsbsec]
        · rw [if_neg hc]
      rw [secClash_left_eq T.sec ha, secClash_right_eq T.sec hb]
      exact hab
    have hnd₁ : (docs.map T.dkey).Nodup := by
      rw [List.map_cons, List.nodup_cons] at hnd
      exact hnd.2
    have happ₁ : ∀ d' ∈ docs,
        ∃ x' ∈ tbl.map (fun z => if T.key z == T.key x then tsb now' z else z),
          Applied T tsb now' d' x' := by
      intro d' hd'
      obtain ⟨x', hx'tbl, r', hmkd', hx'key, hx'set⟩ := happ d' (List.mem_cons_of_mem d hd')
      have hx'x : (T.key x' == T.key x) = false := by
        refine beq_eq_false_of_ne fun he => ?_
        have : T.dkey d' = T.dkey d := by
          rw [hdk d' r' hmkd', hdkd, ← hx'key, ← hxkey, he]
        rw [List.map_cons, List.nodup_cons] at hnd
        exact hnd.1 (this ▸ List.mem_map_of_mem T.dkey hd')
      refine ⟨x', List.mem_map.mpr ⟨x', hx'tbl, by rw [if_neg (ne_true_of_eq_false hx'x)]⟩,
              r', hmkd', hx'key, hx'set⟩
    obtain ⟨evs₂, hrest⟩ := ih _ hk₁ hs₁ hnd₁ happ₁
    refine ⟨[⟨T.tk, T.key r⟩] ++ evs₂, ?_⟩
    have hcomb := runList_cons_of hstep hrest
    rw [hcomb]
    have hmapeq :
        List.map (fun y => if (docs.any fun dd => T.dkey dd == some (T.key y)) = true
              then tsb now' y else y)
          (List.map (fun z => if (T.key z == T.key x) = true then tsb now' z else z) tbl) =
        List.map (fun y => if ((d :: docs).any fun dd => T.dkey dd == some (T.key y)) = true
              then tsb now' y else y) tbl := by
      rw [List.map_map]
      refine List.map_congr_left fun z hz => ?_
      simp only [Function.comp_apply]
      by_cases hzx : (T.key z == T.key x) = true
      · have hz_eq : T.key z = T.key x := eq_of_beq hzx
        have hbz : (docs.any fun dd => T.dkey dd == some (T.key (tsb now' z))) = false := by
          rw [List.any_eq_false]
          intro dd hdd hcontra
          have h1 : T.dkey dd = some (T.key (tsb now' z)) := eq_of_beq hcontra
          rw [htsbkey, hz_eq, hxkey, ← hdkd] at h1
          rw [List.map_cons, List.nodup_cons] at hnd
          exact hnd.1 (h1 ▸ List.mem_map_of_mem T.dkey hdd)
        rw [if_pos hzx, if_neg (ne_true_of_eq_false hbz)]
        have hcond : ((d :: docs).any fun dd => T.dkey dd == some (T.key z)) = true := by
          rw [List.any_cons]
          have : (T.dkey d == some (T.key z)) = true :=
            beq_iff_eq.mpr (by rw [hdkd, hz_eq, hxkey])
          rw [this]
          rfl
        rw [if_pos hcond]
      · rw [if_neg hzx]
        have hdz : (T.dkey d == some (T.key z)) = false := by
          refine beq_eq_false_of_ne fun he => ?_
          rw [hdkd] at he
          have h2 : T.key r = T.key z := Option.some.inj he
          exact hzx (beq_iff_eq.mpr (by rw [← h2, ← hxkey]))
        have hcondeq : ((d :: docs).any fun dd => T.dkey dd == some (T.key z)) =
            (docs.any fun dd => T.dkey dd == some (T.key z)) := by
          rw [List.any_cons, hdz]
          rfl
        rw [hcondeq]
    rw [hmapeq]

end TabSecond

/-! ### Per-table instantiation data: normalised insert rows, update
effects and timestamp bumps -/

/-- The category `DO UPDATE` writes back exactly the exported values,
so re-importing a category leaves its row unchanged (there is no
timestamp column). -/
def catBump (_ : Nat) (x : CategoryRow) : CategoryRow := x

/-- Re-importing a collection refreshes only `updated_at`. -/
def collBump (n : Nat) (x : CollectionRow) : CollectionRow := { x with updated_at := n }

/-- Re-importing a collection detail refreshes only `updated_at`. -/
def detBump (n : Nat) (x : DetailRow) : DetailRow := { x with updated_at := n }

/-- Re-importing an attachment normalises a `NULL` description to the
empty string (the export wrote `description or ""`) and touches no
timestamp. -/
def attBump (_ : Nat) (x : AttachmentRow) : AttachmentRow :=
  { x with description := some (x.description.getD "") }

/-- Re-importing a post normalises a `NULL` description to the empty
string and refreshes `updated_at`. -/
def postBump (n : Nat) (x : PostRow) : PostRow :=
  { x with description := some (x.description.getD ""), updated_at := n }

/-- Re-importing a comment refreshes only `updated_at`. -/
def commBump (n : Nat) (x : CommentRow) : CommentRow := { x with updated_at := n }

/-- Inserting an exported attachment stores `description or ""`. -/
def attNorm (x : AttachmentRow) : AttachmentRow :=
  { x with description := some (x.description.getD "") }

/-- Inserting an exported post stores `description or ""`. -/
def postNorm (x : PostRow) : PostRow :=
  { x with description := some (x.description.getD "") }

/-- Second-import timestamp effect for categories: none (no timestamp
column). -/
def catTsb (_ : Nat) (x : CategoryRow) : CategoryRow := x

/-- Second-import timestamp effect for collections. -/
def collTsb (n : Nat) (x : CollectionRow) : CollectionRow := { x with updated_at := n }

/-- Second-import timestamp effect for collection details. -/
def detTsb (n : Nat) (x : DetailRow) : DetailRow := { x with updated_at := n }

/-- Second-import timestamp effect for attachments: none (no
`updated_at` column; the update rewrites `url` and `description` with
the same values). -/
def attTsb (_ : Nat) (x : AttachmentRow) : AttachmentRow := x

/-- Second-import timestamp effect for posts. -/
def postTsb (n : Nat) (x : PostRow) : PostRow := { x with updated_at := n }

/-- Second-import timestamp effect for comments. -/
def commTsb (n : Nat) (x : CommentRow) : CommentRow := { x with updated_at := n }

/-! ### The per-table document-key lemmas -/

theorem cat_dkey : ∀ (d : CategoryDoc) (r : CategoryRow),
    catTab.mkr d = .ok r → catTab.dkey d = some (catTab.key r) := by
  intro d r h
  rcases d with ⟨i, u, nm, e, k⟩
  cases i <;> cases u <;> cases nm <;> simp_all [catTab] <;> rw [← h]

theorem coll_dkey : ∀ (d : CollectionDoc) (r : CollectionRow),
    collTab.mkr d = .ok r → collTab.dkey d = some (collTab.key r) := by
  intro d r h
  rcases d with ⟨i, u, c, t, ca, ua⟩
  cases i <;> cases u <;> cases ca <;> cases ua <;> simp_all [collTab] <;> rw [← h]

theorem det_dkey : ∀ (d : DetailDoc) (r : DetailRow),
    detTab.mkr d = .ok r → detTab.dkey d = some (detTab.key r) := by
  intro d r h
  rcases d with ⟨i, c, k, v, ca, ua⟩
  cases i <;> cases c <;> cases k <;> cases v <;> cases ca <;> cases ua <;> simp_all [detTab] <;> rw [← h]

theorem att_dkey : ∀ (d : AttachmentDoc) (r : AttachmentRow),
    attTab.mkr d = .ok r → attTab.dkey d = some (attTab.key r) := by
  intro d r h
  rcases d with ⟨i, u, f, fp, ca⟩
  cases i <;> cases u <;> cases fp <;> cases ca <;> simp_all [attTab] <;> rw [← h]

theorem post_dkey : ∀ (d : PostDoc) (r : PostRow),
    postTab.mkr d = .ok r → postTab.dkey d = some (postTab.key r) := by
  intro d r h
  rcases d with ⟨i, u, c, ct, ca, ua⟩
  cases i <;> cases u <;> cases c <;> cases ca <;> cases ua <;> simp_all [postTab] <;> rw [← h]

theorem comm_dkey : ∀ (d : CommentDoc) (r : CommentRow),
    commTab.mkr d = .ok r → commTab.dkey d = some (commTab.key r) := by
  intro d r h
  rcases d with ⟨i, p, u, ct, ca, ua⟩
  cases i <;> cases p <;> cases u <;> cases ct <;> cases ca <;> cases ua <;> simp_all [commTab] <;> rw [← h]

/-! ### Bridging well-formedness to the upsert invariants -/

theorem SOK_of_secmap_nodup {ρ δ : Type} (T : Tab ρ δ) {f : ρ → String × String}
    (hf : ∀ x, T.sec x = some (f x)) {tbl : List ρ}
    (h : (tbl.map f).Nodup) : SOK T tbl := by
  unfold SOK
  have hpw : tbl.Pairwise (fun a b => f a ≠ f b) := by
    rw [List.Nodup] at h
    rw [← List.pairwise_map]
    exact h
  refine hpw.imp ?_
  intro a b hne
  unfold secClash
  rw [hf a, hf b]
  exact beq_eq_false_of_ne hne

theorem SOK_of_no_sec {ρ δ : Type} (T : Tab ρ δ)
    (hf : ∀ x, T.sec x = none) (tbl : List ρ) : SOK T tbl := by
  unfold SOK
  refine pairwise_of_forall ?_
  intro a b
  unfold secClash
  rw [hf a]

theorem runT_pres {ρ δ : Type} (T : Tab ρ δ)
    (hkeyset : ∀ n r x, T.key (T.set n r x) = T.key x)
    {now : Nat} {ds : List δ} {tbl tbl' : List ρ} {evs : List Event}
    (h : runList (stepT T now) tbl ds = .ok (tbl', evs))
    (hk : KOK T tbl) (hs : SOK T tbl) : KOK T tbl' ∧ SOK T tbl' := by
  refine runList_inv (I := fun t => KOK T t ∧ SOK T t) ?_ h ⟨hk, hs⟩
  intro a d a' evs' hstep hI
  exact ⟨stepT_KOK T hkeyset hstep hI.1, stepT_SOK T hkeyset hstep hI.1 hI.2⟩

theorem stepT_events {ρ δ : Type} (T : Tab ρ δ) {now : Nat} {tbl : List ρ} {d : δ}
    {tbl' : List ρ} {evs : List Event}
    (h : stepT T now tbl d = .ok (tbl', evs)) : ∀ e ∈ evs, e.table = T.tk := by
  obtain ⟨r, _, hevs, _⟩ := stepT_ok_cases T h
  subst hevs
  intro e he
  rw [List.mem_singleton.mp he]

/-! ### Projection helpers used by the snapshot arguments -/

theorem filter_map_proj {α β : Type} (g : α → α) (p : α → Bool) (proj : α → β)
    (l : List α) (hp : ∀ y, p (g y) = p y) (hproj : ∀ y, proj (g y) = proj y) :
    ((l.map g).filter p).map proj = (l.filter p).map proj := by
  rw [List.filter_map, List.map_map]
  have h1 : List.filter (p ∘ g) l = List.filter p l :=
    List.filter_congr fun y _ => hp y
  rw [h1]
  exact List.map_congr_left fun y _ => hproj y

theorem filter_key_of_mem {α β : Type} [BEq β] [LawfulBEq β] {f : α → β} {l : List α}
    (h : (l.map f).Nodup) {x : α} (hx : x ∈ l) :
    l.filter (fun y => f y == f x) = [x] := by
  induction l with
  | nil => cases hx
  | cons a t ih =>
    rw [List.map_cons, List.nodup_cons] at h
    rcases List.mem_cons.mp hx with rfl | hxt
    · rw [List.filter_cons, if_pos (by simp)]
      have ht : t.filter (fun y => f y == f x) = [] := by
        rw [List.filter_eq_nil_iff]
        intro y hy hcontra
        exact h.1 (eq_of_beq hcontra ▸ List.mem_map_of_mem f hy)
      rw [ht]
    · have hne : (f a == f x) = false := by
        refine beq_eq_false_of_ne fun he => ?_
        exact h.1 (he ▸ List.mem_map_of_mem f hxt)
      rw [List.filter_cons, if_neg (ne_true_of_eq_false hne)]
      exact ih h.2 hxt

theorem map_ite_self {α : Type} (p : α → Bool) (l : List α) :
    (l.map fun y => if p y then y else y) = l := by
  have : (fun y => if p y = true then y else y) = fun y : α => y := by
    funext y
    rw [ite_self]
  rw [this, List.map_id']

theorem filter_idem {α : Type} (p : α → Bool) (l : List α) :
    (l.filter p).filter p = l.filter p := by
  rw [List.filter_filter]
  exact List.filter_congr fun y _ => by
    cases h : p y
    · rfl
    · rfl

/-! ### Lemmas about the users branch -/

theorem userStep_skip {c : String} {n : Nat} {tbl : List UserRow} {d : UserDoc}
    {j : String} (hj : d.id = some j) (hne : (j == c) = false) :
    userStep c n tbl d = .ok (tbl, []) := by
  unfold userStep
  rw [hj]
  dsimp only
  rw [if_neg (ne_true_of_eq_false hne)]

theorem userStep_ok_id {c : String} {n : Nat} {tbl : List UserRow} {d : UserDoc}
    {out : List UserRow × List Event} (h : userStep c n tbl d = .ok out) :
    ∃ j, d.id = some j := by
  revert h
  unfold userStep
  cases hid : d.id with
  | none => intro h; cases h
  | some j => intro _; exact ⟨j, rfl⟩

theorem userStep_caller_cases {c : String} {n : Nat} {tbl tblA : List UserRow}
    {d : UserDoc} {ev : List Event}
    (h : userStep c n tbl d = .ok (tblA, ev)) (hj : d.id = some c) :
    ∃ un em, d.username = some un ∧ d.email = some em ∧ ev = [⟨.users, c⟩] ∧
      ((tbl.any (fun x => x.id == c)) = false ∧ tblA = tbl ∨
       (tbl.any (fun x => x.id == c)) = true ∧
       (tbl.any fun y => (y.id != c) && (y.username == un || y.email == em)) = false ∧
       tblA = tbl.map (fun x =>
         if x.id == c then { x with username := un, email := em, updated_at := n } else x)) := by
  unfold userStep at h
  rw [hj] at h
  dsimp only at h
  rw [if_pos (beq_iff_eq.mpr rfl)] at h
  cases hun : d.username with
  | none => rw [hun] at h; cases h
  | some un =>
    cases hem : d.email with
    | none => rw [hun, hem] at h; cases h
    | some em =>
      rw [hun, hem] at h
      dsimp only at h
      cases hany : tbl.any (fun x => x.id == c) with
      | false =>
        rw [hany] at h
        simp only [Bool.false_eq_true, if_false, Except.ok.injEq, Prod.mk.injEq] at h
        exact ⟨un, em, rfl, rfl, h.2.symm, .inl ⟨rfl, h.1.symm⟩⟩
      | true =>
        rw [hany] at h
        simp only [if_true] at h
        cases hbad : tbl.any fun y => (y.id != c) && (y.username == un || y.email == em) with
        | true => rw [hbad] at h; simp at h
        | false =>
          rw [hbad] at h
          simp only [Bool.false_eq_true, if_false, Except.ok.injEq, Prod.mk.injEq] at h
          exact ⟨un, em, rfl, rfl, h.2.symm, .inr ⟨rfl, hbad, h.1.symm⟩⟩

theorem userStep_ids {c : String} {n : Nat} {tbl tblA : List UserRow}
    {d : UserDoc} {ev : List Event}
    (h : userStep c n tbl d = .ok (tblA, ev)) :
    tblA.map (·.id) = tbl.map (·.id) := by
  obtain ⟨j, hj⟩ := userStep_ok_id h
  by_cases hjc : (j == c) = true
  · have hjc' : j = c := eq_of_beq hjc
    subst hjc'
    obtain ⟨un, em, _, _, _, hcase | hcase⟩ := userStep_caller_cases h hj
    · rw [hcase.2]
    · rw [hcase.2.2, List.map_map]
      refine List.map_congr_left fun x _ => ?_
      by_cases hx : (x.id == j) = true
      · simp only [Function.comp_apply]
        rw [if_pos hx]
      · simp only [Function.comp_apply]
        rw [if_neg hx]
  · have hskip := @userStep_skip c n tbl _ _ hj (Bool.eq_false_iff.mpr hjc)
    rw [hskip] at h
    simp only [Except.ok.injEq, Prod.mk.injEq] at h
    rw [← h.1]

theorem userStep_events {c : String} {n : Nat} {tbl tblA : List UserRow}
    {d : UserDoc} {ev : List Event}
    (h : userStep c n tbl d = .ok (tblA, ev)) : ∀ e ∈ ev, e.table = .users := by
  obtain ⟨j, hj⟩ := userStep_ok_id h
  by_cases hjc : (j == c) = true
  · have hjc' : j = c := eq_of_beq hjc
    subst hjc'
    obtain ⟨un, em, _, _, hev, _⟩ := userStep_caller_cases h hj
    subst hev
    intro e he
    rw [List.mem_singleton.mp he]
  · have hskip := @userStep_skip c n tbl _ _ hj (Bool.eq_false_iff.mpr hjc)
    rw [hskip] at h
    simp only [Except.ok.injEq, Prod.mk.injEq] at h
    rw [← h.2]
    intro e he
    cases he

theorem userRun_skip {c : String} {n : Nat} {tbl : List UserRow} {ds : List UserDoc}
    (hall : ∀ d ∈ ds, ∃ j, d.id = some j ∧ (j == c) = false) :
    runList (userStep c n) tbl ds = .ok (tbl, []) := by
  induction ds with
  | nil => rfl
  | cons d ds ih =>
    obtain ⟨j, hj, hne⟩ := hall d (List.mem_cons_self d ds)
    have hstep := @userStep_skip c n tbl _ _ hj hne
    have hrest := ih fun d' hd' => hall d' (List.mem_cons_of_mem d hd')
    exact runList_cons_of hstep hrest

theorem userRun_ids_present {c : String} {n : Nat} {tbl tbl' : List UserRow}
    {ds : List UserDoc} {evs : List Event}
    (h : runList (userStep c n) tbl ds = .ok (tbl', evs)) :
    ∀ d ∈ ds, ∃ j, d.id = some j := by
  induction ds generalizing tbl evs with
  | nil => intro d hd; cases hd
  | cons d ds ih =>
    obtain ⟨tblA, ev₁, ev₂, hstep, hrest, _⟩ := runList_cons_ok h
    intro d' hd'
    rcases List.mem_cons.mp hd' with rfl | hd'tail
    · exact userStep_ok_id hstep
    · exact ih hrest d' hd'tail

theorem users_doc_split (docs : List UserDoc) (c : String)
    (hnd : (docs.map (·.id)).Nodup) :
    (∀ d ∈ docs, d.id ≠ some c) ∨
    ∃ pre dc post, docs = pre ++ dc :: post ∧ dc.id = some c ∧
      (∀ d ∈ pre, d.id ≠ some c) ∧ (∀ d ∈ post, d.id ≠ some c) := by
  induction docs with
  | nil =>
    left
    intro d hd
    cases hd
  | cons d ds ih =>
    rw [List.map_cons, List.nodup_cons] at hnd
    by_cases hd : d.id = some c
    · right
      refine ⟨[], d, ds, rfl, hd, fun d' hd' => absurd hd' (List.not_mem_nil d'), ?_⟩
      intro d' hd' hcontra
      exact hnd.1 (by rw [hd, ← hcontra]; exact List.mem_map_of_mem (·.id) hd')
    · rcases ih hnd.2 with hleft | ⟨pre, dc, post, heq, hdc, hpre, hpost⟩
      · left
        intro d' hd'
        rcases List.mem_cons.mp hd' with rfl | hd'tail
        · exact hd
        · exact hleft d' hd'tail
      · right
        refine ⟨d :: pre, dc, post, by rw [heq, List.cons_append], hdc, ?_, hpost⟩
        intro d' hd'
        rcases List.mem_cons.mp hd' with rfl | hd'tail
        · exact hd
        · exact hpre d' hd'tail

theorem runList_append_eq {α δ : Type}
    {step : α → δ → Except ImportErr (α × List Event)} {l₁ : List δ} (l₂ : List δ)
    {a a' : α} {e₁ : List Event}
    (h1 : runList step a l₁ = .ok (a', e₁)) :
    runList step a (l₁ ++ l₂) =
      match runList step a' l₂ with
      | .error e => .error e
      | .ok (a'', e₂) => .ok (a'', e₁ ++ e₂) := by
  cases hr : runList step a' l₂ with
  | error e =>
    dsimp only
    induction l₁ generalizing a e₁ with
    | nil =>
      unfold runList at h1
      simp only [Except.ok.injEq, Prod.mk.injEq] at h1
      rw [List.nil_append, h1.1]
      exact hr
    | cons d ds ih =>
      obtain ⟨b, ev₁, ev₂, hs, hcont, he⟩ := runList_cons_ok h1
      rw [List.cons_append]
      exact runList_cons_tail_err hs (ih hcont)
  | ok p =>
    obtain ⟨a'', e₂⟩ := p
    dsimp only
    exact runList_append_ok h1 hr

theorem users_reimport (now : Nat) (u : UserRow) (tbl : List UserRow)
    (hids : (tbl.map (·.id)).Nodup) (hun : (tbl.map (·.username)).Nodup)
    (hem : (tbl.map (·.email)).Nodup) (hu : u ∈ tbl) :
    runList (userStep u.id now) tbl [userToDoc u] =
      .ok (tbl.map (fun x => if x.id == u.id then { x with updated_at := now } else x),
           [⟨.users, u.id⟩]) := by
  have hstep : userStep u.id now tbl (userToDoc u) =
      .ok (tbl.map (fun x => if x.id == u.id then { x with updated_at := now } else x),
           [⟨.users, u.id⟩]) := by
    unfold userStep userToDoc
    dsimp only
    rw [if_pos (beq_iff_eq.mpr rfl)]
    have hany : (tbl.any fun x => x.id == u.id) = true :=
      List.any_eq_true.mpr ⟨u, hu, beq_iff_eq.mpr rfl⟩
    rw [hany]
    simp only [if_true]
    have hbad : (tbl.any fun y =>
        (y.id != u.id) && (y.username == u.username || y.email == u.email)) = false := by
      rw [List.any_eq_false]
      intro y hy hcontra
      rw [Bool.and_eq_true] at hcontra
      have hne : y ≠ u := by
        intro he
        rw [he] at hcontra
        simp at hcontra
      rcases Bool.or_eq_true _ _ |>.mp hcontra.2 with hc | hc
      · exact hne (nodup_keys_inj hun hy hu (eq_of_beq hc))
      · exact hne (nodup_keys_inj hem hy hu (eq_of_beq hc))
    rw [hbad]
    simp only [Bool.false_eq_true, if_false, Except.ok.injEq, Prod.mk.injEq]
    refine ⟨?_, trivial⟩
    refine List.map_congr_left fun x hx => ?_
    by_cases hxc : (x.id == u.id) = true
    · have hx_eq : x = u := nodup_keys_inj hids hx hu (eq_of_beq hxc)
      subst hx_eq
      rw [if_pos hxc]
    · rw [if_neg hxc, if_neg hxc]
  have hnil : runList (userStep u.id now)
      (tbl.map (fun x => if x.id == u.id then { x with updated_at := now } else x)) [] =
      .ok (tbl.map (fun x => if x.id == u.id then { x with updated_at := now } else x), []) := rfl
  have := runList_cons_of hstep hnil
  rw [List.append_nil] at this
  exact this

theorem users_second (c : String) (n₁ n₂ : Nat) (docs : List UserDoc)
    (tbl tbl₁ : List UserRow) (e₁ : List Event)
    (hnd : (docs.map (·.id)).Nodup)
    (hids : (tbl.map (·.id)).Nodup)
    (h1 : runList (userStep c n₁) tbl docs = .ok (tbl₁, e₁)) :
    ∃ tbl₂ e₂, runList (userStep c n₂) tbl₁ docs = .ok (tbl₂, e₂) ∧
      tbl₂.map upEraseU = tbl₁.map upEraseU := by
  have hip := userRun_ids_present h1
  rcases users_doc_split docs c hnd with hnone | ⟨pre, dc, post, heq, hdc, hpre, hpost⟩
  · have hall : ∀ d ∈ docs, ∃ j, d.id = some j ∧ (j == c) = false := by
      intro d hd
      obtain ⟨j, hj⟩ := hip d hd
      exact ⟨j, hj, beq_eq_false_of_ne fun he => hnone d hd (by rw [hj, he])⟩
    have hskip := @userRun_skip c n₁ tbl _ hall
    rw [hskip] at h1
    simp only [Except.ok.injEq, Prod.mk.injEq] at h1
    rw [← h1.1]
    exact ⟨tbl, [], userRun_skip hall, rfl⟩
  · subst heq
    have hallpre : ∀ d ∈ pre, ∃ j, d.id = some j ∧ (j == c) = false := by
      intro d hd
      obtain ⟨j, hj⟩ := hip d (List.mem_append.mpr (.inl hd))
      exact ⟨j, hj, beq_eq_false_of_ne fun he => hpre d hd (by rw [hj, he])⟩
    have hallpost : ∀ d ∈ post, ∃ j, d.id = some j ∧ (j == c) = false := by
      intro d hd
      obtain ⟨j, hj⟩ := hip d (List.mem_append.mpr (.inr (List.mem_cons_of_mem dc hd)))
      exact ⟨j, hj, beq_eq_false_of_ne fun he => hpost d hd (by rw [hj, he])⟩
    have hpre1 : runList (userStep c n₁) tbl pre = .ok (tbl, []) := userRun_skip hallpre
    rw [runList_append_eq (dc :: post) hpre1] at h1
    cases hmid : runList (userStep c n₁) tbl (dc :: post) with
    | error e => rw [hmid] at h1; cases h1
    | ok p =>
      obtain ⟨tblM, evM⟩ := p
      rw [hmid] at h1
      simp only [Except.ok.injEq, Prod.mk.injEq] at h1
      obtain ⟨tblA, ev₁, ev₂, hstep, hrest, _⟩ := runList_cons_ok hmid
      have hpost1 : runList (userStep c n₁) tblA post = .ok (tblA, []) := userRun_skip hallpost
      rw [hpost1] at hrest
      simp only [Except.ok.injEq, Prod.mk.injEq] at hrest
      have htbl₁ : tbl₁ = tblA := by rw [← h1.1, ← hrest.1]
      subst htbl₁
      obtain ⟨un, em, hun', hem', hev, hcase | hcase⟩ := userStep_caller_cases hstep hdc
      · -- the caller row is absent: both passes leave the table unchanged
        obtain ⟨hany, htblA⟩ := hcase
        subst htblA
        have hstep2 : userStep c n₂ tbl₁ dc = .ok (tbl₁, [⟨.users, c⟩]) := by
          unfold userStep
          rw [hdc]
          dsimp only
          rw [if_pos (beq_iff_eq.mpr rfl), hun', hem']
          dsimp only
          rw [hany]
          simp
        have hpre2 : runList (userStep c n₂) tbl₁ pre = .ok (tbl₁, []) := userRun_skip hallpre
        have hpost2 : runList (userStep c n₂) tbl₁ post = .ok (tbl₁, []) := userRun_skip hallpost
        have hmid2 := runList_cons_of hstep2 hpost2
        have htot := runList_append_ok hpre2 hmid2
        exact ⟨tbl₁, _, htot, rfl⟩
      · -- the caller row was updated by the first pass; the second pass
        -- rewrites the same username/email and bumps the timestamp
        obtain ⟨hany, hbad, htblA⟩ := hcase
        have hstep2 : userStep c n₂ tbl₁ dc =
            .ok (tbl₁.map (fun x =>
              if x.id == c then { x with username := un, email := em, updated_at := n₂ }
              else x), [⟨.users, c⟩]) := by
          unfold userStep
          rw [hdc]
          dsimp only
          rw [if_pos (beq_iff_eq.mpr rfl), hun', hem']
          dsimp only
          have hany2 : (tbl₁.any fun x => x.id == c) = true := by
            obtain ⟨x, hx, hxc⟩ := List.any_eq_true.mp hany
            refine List.any_eq_true.mpr ⟨?_, ?_, ?_⟩
            · exact if x.id == c then { x with username := un, email := em, updated_at := n₁ } else x
            · rw [htblA]
              exact List.mem_map_of_mem _ hx
            · rw [if_pos hxc]
              exact hxc
          rw [hany2]
          simp only [if_true]
          have hbad2 : (tbl₁.any fun y =>
              (y.id != c) && (y.username == un || y.email == em)) = false := by
            rw [List.any_eq_false]
            intro y' hy' hcontra
            rw [htblA] at hy'
            obtain ⟨y, hy, hyeq⟩ := List.mem_map.mp hy'
            rw [Bool.and_eq_true] at hcontra
            by_cases hyc : (y.id == c) = true
            · rw [if_pos hyc] at hyeq
              rw [← hyeq] at hcontra
              have : (y.id != c) = false := by
                rw [bne_eq_false_iff_eq]
                exact eq_of_beq hyc
              rw [this] at hcontra
              exact Bool.false_ne_true hcontra.1
            · rw [if_neg hyc] at hyeq
              rw [← hyeq] at hcontra
              have := List.any_eq_false.mp hbad y hy
              apply this
              rw [Bool.and_eq_true]
              exact hcontra
          rw [hbad2]
          simp
        have hpre2 : runList (userStep c n₂) tbl₁ pre = .ok (tbl₁, []) := userRun_skip hallpre
        have hpost2 := @userRun_skip c n₂ (tbl₁.map (fun x =>
            if x.id == c then { x with username := un, email := em, updated_at := n₂ }
            else x)) _ hallpost
        have hmid2 := runList_cons_of hstep2 hpost2
        have htot := runList_append_ok hpre2 hmid2
        refine ⟨_, _, htot, ?_⟩
        rw [htblA, List.map_map, List.map_map, List.map_map]
        refine List.map_congr_left fun y hy => ?_
        by_cases hyc : (y.id == c) = true
        · simp only [Function.comp_apply]
          rw [if_pos hyc]
          have hthis : ({ y with username := un, email := em, updated_at := n₁ } : UserRow).id = y.id := rfl
          rw [if_pos (by rw [hthis]; exact hyc)]
          rfl
        · simp only [Function.comp_apply]
          rw [if_neg hyc, if_neg hyc]

/-! ### Lemmas about the likes branch -/

theorem likeStep_ok_cases {tbl tbl' : List LikeRow} {d : LikeDoc} {evs : List Event}
    (h : likeStep tbl d = .ok (tbl', evs)) :
    ∃ i uid aid ty ca, d.id = some i ∧ d.user_id = some uid ∧ d.asset_id = some aid ∧
      d.asset_type = some ty ∧ d.created_at = some ca ∧ evs = [⟨.likes, i⟩] ∧
      ((tbl.any fun y => y.id == i ||
          (y.user_id == uid && y.asset_id == aid && y.asset_type == ty)) = true ∧ tbl' = tbl ∨
       (tbl.any fun y => y.id == i ||
          (y.user_id == uid && y.asset_id == aid && y.asset_type == ty)) = false ∧
         tbl' = tbl ++ [⟨i, uid, aid, ty, ca⟩]) := by
  rcases d with ⟨i, u, a, t, ca⟩
  unfold likeStep at h
  cases i with
  | none => cases h
  | some i =>
    cases u with
    | none => cases h
    | some u =>
      cases a with
      | none => cases h
      | some a =>
        cases t with
        | none => cases h
        | some t =>
          dsimp only at h
          cases ca with
          | none => cases h
          | some ca =>
            dsimp only at h
            cases hany : tbl.any fun y => y.id == i ||
                (y.user_id == u && y.asset_id == a && y.asset_type == t) with
            | true =>
              rw [hany] at h
              simp only [if_true, Except.ok.injEq, Prod.mk.injEq] at h
              exact ⟨i, u, a, t, ca, rfl, rfl, rfl, rfl, rfl, h.2.symm,
                     .inl ⟨hany, h.1.symm⟩⟩
            | false =>
              rw [hany] at h
              simp only [Bool.false_eq_true, if_false, Except.ok.injEq, Prod.mk.injEq] at h
              exact ⟨i, u, a, t, ca, rfl, rfl, rfl, rfl, rfl, h.2.symm,
                     .inr ⟨hany, h.1.symm⟩⟩

theorem like_noop_run (rows tbl : List LikeRow) (hsub : ∀ x ∈ rows, x ∈ tbl) :
    runList likeStep tbl (rows.map likeToDoc) =
      .ok (tbl, rows.map (fun x => ⟨.likes, x.id⟩)) := by
  induction rows with
  | nil => rfl
  | cons x rows ih =>
    have hxtbl : x ∈ tbl := hsub x (List.mem_cons_self x rows)
    have hstep : likeStep tbl (likeToDoc x) = .ok (tbl, [⟨.likes, x.id⟩]) := by
      unfold likeStep likeToDoc
      dsimp only
      have hany : (tbl.any fun y => y.id == x.id ||
          (y.user_id == x.user_id && y.asset_id == x.asset_id &&
           y.asset_type == x.asset_type)) = true := by
        refine List.any_eq_true.mpr ⟨x, hxtbl, ?_⟩
        rw [Bool.or_eq_true]
        exact .inl (beq_iff_eq.mpr rfl)
      rw [hany]
      simp
    have hrest := ih fun w hw => hsub w (List.mem_cons_of_mem x hw)
    have := runList_cons_of hstep hrest
    rw [List.map_cons, this]
    rfl

theorem like_fresh_run (rows acc : List LikeRow)
    (hk : ((acc ++ rows).map (·.id)).Nodup)
    (ht : ((acc ++ rows).map (fun l => (l.user_id, l.asset_id, l.asset_type))).Nodup) :
    runList likeStep acc (rows.map likeToDoc) =
      .ok (acc ++ rows, rows.map (fun x => ⟨.likes, x.id⟩)) := by
  induction rows generalizing acc with
  | nil =>
    simp only [List.map_nil, List.append_nil]
    rfl
  | cons x rows ih =>
    have hstep : likeStep acc (likeToDoc x) = .ok (acc ++ [x], [⟨.likes, x.id⟩]) := by
      unfold likeStep likeToDoc
      dsimp only
      have hany : (acc.any fun y => y.id == x.id ||
          (y.user_id == x.user_id && y.asset_id == x.asset_id &&
           y.asset_type == x.asset_type)) = false := by
        rw [List.any_eq_false]
        intro y hy hcontra
        rw [Bool.or_eq_true] at hcontra
        rcases hcontra with hc | hc
        · rw [List.map_append] at hk
          have hdisj := (List.nodup_append.mp hk).2.2
          have hxmem : x.id ∈ List.map (·.id) (x :: rows) :=
            List.mem_map_of_mem _ (List.mem_cons_self x rows)
          exact hdisj (List.mem_map_of_mem _ hy) (eq_of_beq hc ▸ hxmem)
        · rw [List.map_append] at ht
          have hdisj := (List.nodup_append.mp ht).2.2
          have hxmem : (x.user_id, x.asset_id, x.asset_type) ∈
              List.map (fun l => (l.user_id, l.asset_id, l.asset_type)) (x :: rows) :=
            List.mem_map_of_mem _ (List.mem_cons_self x rows)
          refine hdisj (List.mem_map_of_mem _ hy) ?_
          rw [Bool.and_eq_true, Bool.and_eq_true] at hc
          have h1 : y.user_id = x.user_id := eq_of_beq hc.1.1
          have h2 : y.asset_id = x.asset_id := eq_of_beq hc.1.2
          have h3 : y.asset_type = x.asset_type := eq_of_beq hc.2
          rw [h1, h2, h3]
          exact hxmem
      rw [hany]
      simp
    have hre : (acc ++ [x]) ++ rows = acc ++ x :: rows := by
      rw [List.append_assoc]
      rfl
    have hk₁ : (((acc ++ [x]) ++ rows).map (·.id)).Nodup := by
      rw [hre]
      exact hk
    have ht₁ : (((acc ++ [x]) ++ rows).map (fun l => (l.user_id, l.asset_id, l.asset_type))).Nodup := by
      rw [hre]
      exact ht
    have hrest := ih (acc ++ [x]) hk₁ ht₁
    have := runList_cons_of hstep hrest
    rw [List.map_cons, this, hre]
    rfl

theorem like_run_mono {docs : List LikeDoc} {tbl tbl₁ : List LikeRow} {e₁ : List Event}
    (h : runList likeStep tbl docs = .ok (tbl₁, e₁)) {x : LikeRow} (hx : x ∈ tbl) :
    x ∈ tbl₁ := by
  refine runList_inv (I := fun t => x ∈ t) ?_ h hx
  intro a d a' evs hstep hI
  obtain ⟨i, uid, aid, ty, ca, _, _, _, _, _, _, hcase | hcase⟩ := likeStep_ok_cases hstep
  · rw [hcase.2]
    exact hI
  · rw [hcase.2]
    exact List.mem_append.mpr (.inl hI)

theorem like_run_ready {docs : List LikeDoc} {tbl tbl₁ : List LikeRow} {e₁ : List Event}
    (h : runList likeStep tbl docs = .ok (tbl₁, e₁)) :
    ∀ d ∈ docs, ∃ i uid aid ty ca, d.id = some i ∧ d.user_id = some uid ∧
      d.asset_id = some aid ∧ d.asset_type = some ty ∧ d.created_at = some ca ∧
      (tbl₁.any fun y => y.id == i ||
        (y.user_id == uid && y.asset_id == aid && y.asset_type == ty)) = true := by
  induction docs generalizing tbl e₁ with
  | nil =>
    intro d hd
    cases hd
  | cons d docs ih =>
    obtain ⟨tblA, ev₁, ev₂, hstep, hrest, _⟩ := runList_cons_ok h
    intro d' hd'
    rcases List.mem_cons.mp hd' with rfl | hd'tail
    · obtain ⟨i, uid, aid, ty, ca, h1, h2, h3, h4, h5, _, hcase | hcase⟩ :=
        likeStep_ok_cases hstep
      · obtain ⟨y, hy, hyc⟩ := List.any_eq_true.mp hcase.1
        have hyA : y ∈ tblA := by
          rw [hcase.2]
          exact hy
        refine ⟨i, uid, aid, ty, ca, h1, h2, h3, h4, h5,
          List.any_eq_true.mpr ⟨y, like_run_mono hrest hyA, hyc⟩⟩
      · have hrA : (⟨i, uid, aid, ty, ca⟩ : LikeRow) ∈ tblA := by
          rw [hcase.2]
          exact List.mem_append.mpr (.inr (List.mem_singleton.mpr rfl))
        refine ⟨i, uid, aid, ty, ca, h1, h2, h3, h4, h5,
          List.any_eq_true.mpr ⟨_, like_run_mono hrest hrA, ?_⟩⟩
        rw [Bool.or_eq_true]
        exact .inl (beq_iff_eq.mpr rfl)
    · exact ih hrest d' hd'tail

theorem like_run_noop (docs : List LikeDoc) (tbl₁ : List LikeRow)
    (hready : ∀ d ∈ docs, ∃ i uid aid ty ca, d.id = some i ∧ d.user_id = some uid ∧
      d.asset_id = some aid ∧ d.asset_type = some ty ∧ d.created_at = some ca ∧
      (tbl₁.any fun y => y.id == i ||
        (y.user_id == uid && y.asset_id == aid && y.asset_type == ty)) = true) :
    ∃ e₂, runList likeStep tbl₁ docs = .ok (tbl₁, e₂) := by
  induction docs with
  | nil => exact ⟨[], rfl⟩
  | cons d docs ih =>
    obtain ⟨i, uid, aid, ty, ca, h1, h2, h3, h4, h5, hany⟩ :=
      hready d (List.mem_cons_self d docs)
    have hstep : likeStep tbl₁ d = .ok (tbl₁, [⟨.likes, i⟩]) := by
      unfold likeStep
      rw [h1, h2, h3, h4]
      dsimp only
      rw [h5]
      dsimp only
      rw [hany]
      simp
    obtain ⟨e₂, hrest⟩ := ih fun d' hd' => hready d' (List.mem_cons_of_mem d hd')
    exact ⟨_, runList_cons_of hstep hrest⟩

theorem like_second {docs : List LikeDoc} {tbl tbl₁ : List LikeRow} {e₁ : List Event}
    (h1 : runList likeStep tbl docs = .ok (tbl₁, e₁)) :
    ∃ e₂, runList likeStep tbl₁ docs = .ok (tbl₁, e₂) :=
  like_run_noop docs tbl₁ (like_run_ready h1)

/-! ### Composing and decomposing a whole import -/

theorem importTables_eq {c : String} {now : Nat} {d : Doc} {s : Store}
    {us : List UserRow} {cs : List CategoryRow} {cls : List CollectionRow}
    {dts : List DetailRow} {ats : List AttachmentRow} {ps : List PostRow}
    {cms : List CommentRow} {ls : List LikeRow}
    {e1 e2 e3 e4 e5 e6 e7 e8 : List Event}
    (h1 : runList (userStep c now) s.users (d.users.getD []) = .ok (us, e1))
    (h2 : runList (stepT catTab now) s.categories (d.categories.getD []) = .ok (cs, e2))
    (h3 : runList (stepT collTab now) s.collections (d.collections.getD []) = .ok (cls, e3))
    (h4 : runList (stepT detTab now) s.collection_details (d.collection_details.getD []) = .ok (dts, e4))
    (h5 : runList (stepT attTab now) s.attachments (d.attachments.getD []) = .ok (ats, e5))
    (h6 : runList (stepT postTab now) s.posts (d.posts.getD []) = .ok (ps, e6))
    (h7 : runList (stepT commTab now) s.comments (d.comments.getD []) = .ok (cms, e7))
    (h8 : runList likeStep s.likes (d.likes.getD []) = .ok (ls, e8)) :
    importTables c now d s =
      .ok (⟨us, cs, cls, dts, ats, ps, cms, ls⟩,
           e1 ++ (e2 ++ (e3 ++ (e4 ++ (e5 ++ (e6 ++ (e7 ++ e8))))))) := by
  unfold importTables
  rw [h1]
  dsimp only
  rw [h2]
  dsimp only
  rw [h3]
  dsimp only
  rw [h4]
  dsimp only
  rw [h5]
  dsimp only
  rw [h6]
  dsimp only
  rw [h7]
  dsimp only
  rw [h8]

theorem importTables_ok_cases {c : String} {now : Nat} {d : Doc} {s s' : Store}
    {evs : List Event} (h : importTables c now d s = .ok (s', evs)) :
    ∃ e1 e2 e3 e4 e5 e6 e7 e8,
      runList (userStep c now) s.users (d.users.getD []) = .ok (s'.users, e1) ∧
      runList (stepT catTab now) s.categories (d.categories.getD []) = .ok (s'.categories, e2) ∧
      runList (stepT collTab now) s.collections (d.collections.getD []) = .ok (s'.collections, e3) ∧
      runList (stepT detTab now) s.collection_details (d.collection_details.getD []) = .ok (s'.collection_details, e4) ∧
      runList (stepT attTab now) s.attachments (d.attachments.getD []) = .ok (s'.attachments, e5) ∧
      runList (stepT postTab now) s.posts (d.posts.getD []) = .ok (s'.posts, e6) ∧
      runList (stepT commTab now) s.comments (d.comments.getD []) = .ok (s'.comments, e7) ∧
      runList likeStep s.likes (d.likes.getD []) = .ok (s'.likes, e8) ∧
      evs = e1 ++ (e2 ++ (e3 ++ (e4 ++ (e5 ++ (e6 ++ (e7 ++ e8)))))) := by
  unfold importTables at h
  cases hr1 : runList (userStep c now) s.users (d.users.getD []) with
  | error e => rw [hr1] at h; cases h
  | ok p1 =>
    obtain ⟨us, e1⟩ := p1
    rw [hr1] at h
    dsimp only at h
    cases hr2 : runList (stepT catTab now) s.categories (d.categories.getD []) with
    | error e => rw [hr2] at h; cases h
    | ok p2 =>
      obtain ⟨cs, e2⟩ := p2
      rw [hr2] at h
      dsimp only at h
      cases hr3 : runList (stepT collTab now) s.collections (d.collections.getD []) with
      | error e => rw [hr3] at h; cases h
      | ok p3 =>
        obtain ⟨cls, e3⟩ := p3
        rw [hr3] at h
        dsimp only at h
        cases hr4 : runList (stepT detTab now) s.collection_details (d.collection_details.getD []) with
        | error e => rw [hr4] at h; cases h
        | ok p4 =>
          obtain ⟨dts, e4⟩ := p4
          rw [hr4] at h
          dsimp only at h
          cases hr5 : runList (stepT attTab now) s.attachments (d.attachments.getD []) with
          | error e => rw [hr5] at h; cases h
          | ok p5 =>
            obtain ⟨ats, e5⟩ := p5
            rw [hr5] at h
            dsimp only at h
            cases hr6 : runList (stepT postTab now) s.posts (d.posts.getD []) with
            | error e => rw [hr6] at h; cases h
            | ok p6 =>
              obtain ⟨ps, e6⟩ := p6
              rw [hr6] at h
              dsimp only at h
              cases hr7 : runList (stepT commTab now) s.comments (d.comments.getD []) with
              | error e => rw [hr7] at h; cases h
              | ok p7 =>
                obtain ⟨cms, e7⟩ := p7
                rw [hr7] at h
                dsimp only at h
                cases hr8 : runList likeStep s.likes (d.likes.getD []) with
                | error e => rw [hr8] at h; cases h
                | ok p8 =>
                  obtain ⟨ls, e8⟩ := p8
                  rw [hr8] at h
                  dsimp only at h
                  simp only [Except.ok.injEq, Prod.mk.injEq] at h
                  obtain ⟨hs', hevs⟩ := h
                  subst hs'
                  exact ⟨e1, e2, e3, e4, e5, e6, e7, e8,
                         rfl, rfl, rfl, rfl, rfl, rfl, rfl, rfl, hevs.symm⟩

/-! ### Claim theorems -/

/-- C10: the import operation never inserts a new row into the users
table — the users branch at most updates the caller's own row in
place, and no other branch touches the users table — so after
any import call (successful or rolled back) the sequence of user ids in
the store is exactly what it was before the call. -/
theorem import_preserves_user_id_set (c : String) (now : Nat) (d : Doc) (s : Store) :
    (importRun c now d s).1.users.map (·.id) = s.users.map (·.id) := by
  unfold importRun
  cases h : importTables c now d s with
  | error e => rfl
  | ok p =>
    obtain ⟨s', evs⟩ := p
    obtain ⟨e1, _, _, _, _, _, _, _, h1, _⟩ := importTables_ok_cases h
    dsimp only
    refine runList_inv (I := fun t => t.map (·.id) = s.users.map (·.id)) ?_ h1 rfl
    intro a d' a' evs' hstep hI
    rw [userStep_ids hstep, hI]

/-- C4: a User record in the import document whose id is present but
does not match the authenticated caller is silently skipped —
the import succeeds, executes no statement (no write event), and leaves
the entire store, in particular that other user's row, unchanged. -/
theorem import_skips_foreign_user_record (s : Store) (c : String) (now : Nat)
    (u : UserDoc) (j : String) (hj : u.id = some j) (hne : j ≠ c) :
    importTables c now ⟨some [u], none, none, none, none, none, none, none⟩ s =
      .ok (s, []) := by
  have hstep := @userStep_skip c now s.users _ _ hj (beq_eq_false_of_ne hne)
  have hnil : runList (userStep c now) s.users [] = .ok (s.users, []) := rfl
  have h1 : runList (userStep c now) s.users [u] = .ok (s.users, []) := by
    have := runList_cons_of hstep hnil
    simpa using this
  exact importTables_eq (d := ⟨some [u], none, none, none, none, none, none, none⟩)
    h1 rfl rfl rfl rfl rfl rfl rfl

/-- C3: the import is transactional — if any record of the batch is
malformed (here: a category record anywhere in the list with no `id`
key), the whole import fails and the committed store after the call is
exactly the store before the call, no matter how many records preceded
the malformed one. -/
theorem import_rollback_on_malformed_record (c : String) (now : Nat) (s : Store)
    (pre post : List CategoryDoc) (bad : CategoryDoc) (hbad : bad.id = none) :
    importRun c now ⟨none, some (pre ++ bad :: post), none, none, none, none, none, none⟩ s
      = (s, false) := by
  have hbadstep : ∀ tbl : List CategoryRow, ∃ e, stepT catTab now tbl bad = .error e := by
    intro tbl
    refine ⟨.keyError, ?_⟩
    have hmkr : catTab.mkr bad = .error .keyError := by
      rcases bad with ⟨i, u, nm, e, k⟩
      have : i = none := hbad
      subst this
      rfl
    unfold stepT
    rw [hmkr]
  obtain ⟨e, herr⟩ := runList_err_of_mem hbadstep pre post s.categories
  unfold importRun
  cases h : importTables c now
      ⟨none, some (pre ++ bad :: post), none, none, none, none, none, none⟩ s with
  | error e' => rfl
  | ok p =>
    exfalso
    obtain ⟨s', evs⟩ := p
    obtain ⟨_, _, _, _, _, _, _, _, _, h2, _⟩ := importTables_ok_cases h
    have h2' : runList (stepT catTab now) s.categories (pre ++ bad :: post) =
        .ok (s'.categories, _) := h2
    rw [herr] at h2'
    cases h2'

/-- C8: likes are insert-only-if-absent — when the store already holds
a like conflicting with the incoming record (same primary key or same
`(user_id, asset_id, asset_type)`), the import executes the statement
(one event) but changes nothing and raises no error. -/
theorem conflicting_like_silently_dropped (s : Store) (c : String) (now : Nat)
    (l : LikeDoc) (i uid aid : String) (ty : AssetType) (ca : Nat)
    (h1 : l.id = some i) (h2 : l.user_id = some uid) (h3 : l.asset_id = some aid)
    (h4 : l.asset_type = some ty) (h5 : l.created_at = some ca)
    (hconf : (s.likes.any fun y => y.id == i ||
       (y.user_id == uid && y.asset_id == aid && y.asset_type == ty)) = true) :
    importTables c now ⟨none, none, none, none, none, none, none, some [l]⟩ s =
      .ok (s, [⟨.likes, i⟩]) := by
  have hstep : likeStep s.likes l = .ok (s.likes, [⟨.likes, i⟩]) := by
    unfold likeStep
    rw [h1, h2, h3, h4]
    dsimp only
    rw [h5]
    dsimp only
    rw [hconf]
    simp
  have hnil : runList likeStep s.likes [] = .ok (s.likes, []) := rfl
  have h8 : runList likeStep s.likes [l] = .ok (s.likes, [⟨.likes, i⟩]) := by
    have := runList_cons_of hstep hnil
    simpa using this
  exact importTables_eq (d := ⟨none, none, none, none, none, none, none, some [l]⟩)
    rfl rfl rfl rfl rfl rfl rfl h8

/-- C1 counterexample: authenticated as user `A`, importing a document
whose only record is a category owned by user `B` succeeds and inserts
a category row whose `user_id` is `B` — the import writes a record
owned by someone other than the caller. -/
theorem import_writes_foreign_category_cex :
    (importRun "A" 0 ⟨none, some [⟨some "c1", some "B", some "x", none, none⟩],
        none, none, none, none, none, none⟩ ⟨[], [], [], [], [], [], [], []⟩).1.categories =
      [⟨"c1", "B", "x", none, none⟩] ∧ ("B" : String) ≠ "A" := by
  constructor
  · rfl
  · decide

/-- C1 amended: the import validates ownership only in the users
branch; a record of any other entity type — here a category — is
written with exactly the `user_id` carried by the document, even when
that `user_id` differs from the authenticated caller's id, provided
only that the record is well-formed and conflict-free. -/
theorem import_no_ownership_check_outside_users (s : Store) (c : String) (now : Nat)
    (cd : CategoryDoc) (i uid nm : String)
    (hid : cd.id = some i) (huid : cd.user_id = some uid) (hnm : cd.name = some nm)
    (hforeign : uid ≠ c)
    (hfresh : (s.categories.any fun x => x.id == i) = false)
    (hsec : (s.categories.any fun x => x.user_id == uid && x.name == nm) = false) :
    importTables c now ⟨none, some [cd], none, none, none, none, none, none⟩ s =
      .ok ({ s with categories :=
               s.categories ++ [⟨i, uid, nm, cd.emoji, cd.knowledge_base_id⟩] },
           [⟨.categories, i⟩]) := by
  have hmkr : catTab.mkr cd = .ok ⟨i, uid, nm, cd.emoji, cd.knowledge_base_id⟩ := by
    rcases cd with ⟨i', u', n', e', k'⟩
    have h1 : i' = some i := hid
    have h2 : u' = some uid := huid
    have h3 : n' = some nm := hnm
    subst h1
    subst h2
    subst h3
    rfl
  have hstep : stepT catTab now s.categories cd =
      .ok (s.categories ++ [⟨i, uid, nm, cd.emoji, cd.knowledge_base_id⟩],
           [⟨.categories, i⟩]) := by
    unfold stepT
    rw [hmkr]
    dsimp only
    have hfind : s.categories.find?
        (fun x => catTab.key x == catTab.key ⟨i, uid, nm, cd.emoji, cd.knowledge_base_id⟩)
        = none := by
      rw [List.find?_eq_none]
      intro x hx hcontra
      have := List.any_eq_false.mp hfresh x hx
      exact this hcontra
    rw [hfind]
    dsimp only
    have hchk : (s.categories.any fun y =>
        secClash catTab.sec y ⟨i, uid, nm, cd.emoji, cd.knowledge_base_id⟩) = false := by
      rw [List.any_eq_false]
      intro y hy hcontra
      unfold secClash catTab at hcontra
      dsimp only at hcontra
      have hpair : (y.user_id, y.name) = (uid, nm) := eq_of_beq hcontra
      have := List.any_eq_false.mp hsec y hy
      apply this
      rw [Bool.and_eq_true]
      exact ⟨beq_iff_eq.mpr (congrArg Prod.fst hpair),
             beq_iff_eq.mpr (congrArg Prod.snd hpair)⟩
    rw [hchk]
    simp only [Bool.false_eq_true, if_false, Except.ok.injEq, Prod.mk.injEq]
    exact ⟨trivial, rfl⟩
  have hnil : runList (stepT catTab now)
      (s.categories ++ [⟨i, uid, nm, cd.emoji, cd.knowledge_base_id⟩]) [] =
      .ok (s.categories ++ [⟨i, uid, nm, cd.emoji, cd.knowledge_base_id⟩], []) := rfl
  have h2 : runList (stepT catTab now) s.categories [cd] =
      .ok (s.categories ++ [⟨i, uid, nm, cd.emoji, cd.knowledge_base_id⟩],
           [⟨.categories, i⟩]) := by
    have := runList_cons_of hstep hnil
    simpa using this
  exact importTables_eq (d := ⟨none, some [cd], none, none, none, none, none, none⟩)
    rfl h2 rfl rfl rfl rfl rfl rfl

/-- C2 counterexample: with a post owned by `A` and a comment on that
post authored by `B`, exporting `A`'s data includes the comment — a
record whose owning `user_id` is `B` appears in `A`'s export
document. -/
theorem export_includes_foreign_comment_cex :
    ((exportDoc ⟨"A", "alice", "a@x", "h", 1, 1⟩
        ⟨[⟨"A", "alice", "a@x", "h", 1, 1⟩, ⟨"B", "bob", "b@x", "h", 1, 1⟩],
         [], [], [], [],
         [⟨"p1", "A", "k1", some "hi", 4, 4⟩],
         [⟨"cm1", "p1", "B", "nice", 5, 5⟩], []⟩).comments.getD []).map (·.user_id) =
      [some "B"] ∧ ("B" : String) ≠ "A" := by
  constructor
  · rfl
  · decide

/-- C2 amended: every exported category, collection, post, attachment
and like is owned by the caller, the exported user list is exactly the
caller, collection details are selected through the caller's
collections, and comments are selected through the caller's posts — so
a comment authored by another user on the caller's post is the one
kind of record not owned by the caller that the export can contain. -/
theorem export_scope_isolation_except_comments (u : UserRow) (s : Store) :
    (exportDoc u s).users = some [userToDoc u] ∧
    ((exportDoc u s).categories.getD []).all (fun c => c.user_id == some u.id) = true ∧
    ((exportDoc u s).collections.getD []).all (fun c => c.user_id == some u.id) = true ∧
    ((exportDoc u s).posts.getD []).all (fun p => p.user_id == some u.id) = true ∧
    ((exportDoc u s).attachments.getD []).all (fun a => a.user_id == some u.id) = true ∧
    ((exportDoc u s).likes.getD []).all (fun l => l.user_id == some u.id) = true ∧
    ((exportDoc u s).collection_details.getD []).all
      (fun dd => ((s.collections.filter (fun c => c.user_id == u.id)).map (·.id)).contains
        (dd.collection_id.getD "")) = true ∧
    ((exportDoc u s).comments.getD []).all
      (fun cc => ((s.posts.filter (fun p => p.user_id == u.id)).map (·.id)).contains
        (cc.post_id.getD "")) = true := by
  refine ⟨rfl, ?_, ?_, ?_, ?_, ?_, ?_, ?_⟩
  · rw [List.all_eq_true]
    intro cdoc hcdoc
    unfold exportDoc at hcdoc
    simp only [Option.getD_some] at hcdoc
    obtain ⟨crow, hcrow, hmap⟩ := List.mem_map.mp hcdoc
    rw [← hmap]
    unfold catToDoc
    exact beq_iff_eq.mpr (congrArg some (eq_of_beq (List.mem_filter.mp hcrow).2))
  · rw [List.all_eq_true]
    intro cdoc hcdoc
    unfold exportDoc at hcdoc
    simp only [Option.getD_some] at hcdoc
    obtain ⟨crow, hcrow, hmap⟩ := List.mem_map.mp hcdoc
    rw [← hmap]
    unfold collToDoc
    exact beq_iff_eq.mpr (congrArg some (eq_of_beq (List.mem_filter.mp hcrow).2))
  · rw [List.all_eq_true]
    intro pdoc hpdoc
    unfold exportDoc at hpdoc
    simp only [Option.getD_some] at hpdoc
    obtain ⟨prow, hprow, hmap⟩ := List.mem_map.mp hpdoc
    rw [← hmap]
    unfold postToDoc
    exact beq_iff_eq.mpr (congrArg some (eq_of_beq (List.mem_filter.mp hprow).2))
  · rw [List.all_eq_true]
    intro adoc hadoc
    unfold exportDoc at hadoc
    simp only [Option.getD_some] at hadoc
    obtain ⟨arow, harow, hmap⟩ := List.mem_map.mp hadoc
    rw [← hmap]
    unfold attToDoc
    exact beq_iff_eq.mpr (congrArg some (eq_of_beq (List.mem_filter.mp harow).2))
  · rw [List.all_eq_true]
    intro ldoc hldoc
    unfold exportDoc at hldoc
    simp only [Option.getD_some] at hldoc
    obtain ⟨lrow, hlrow, hmap⟩ := List.mem_map.mp hldoc
    rw [← hmap]
    unfold likeToDoc
    exact beq_iff_eq.mpr (congrArg some (eq_of_beq (List.mem_filter.mp hlrow).2))
  · rw [List.all_eq_true]
    intro ddoc hddoc
    unfold exportDoc at hddoc
    simp only [Option.getD_some] at hddoc
    obtain ⟨drow, hdrow, hmap⟩ := List.mem_map.mp hddoc
    rw [← hmap]
    unfold detToDoc
    exact (List.mem_filter.mp hdrow).2
  · rw [List.all_eq_true]
    intro cdoc hcdoc
    unfold exportDoc at hcdoc
    simp only [Option.getD_some] at hcdoc
    obtain ⟨crow, hcrow, hmap⟩ := List.mem_map.mp hcdoc
    rw [← hmap]
    unfold commToDoc
    exact (List.mem_filter.mp hcrow).2

/-- C7 counterexample: importing a document with an existing category
`c1` renamed to `meals` (import time 99) updates the name without
creating a duplicate, but the resulting store is otherwise byte-for-byte
the old store — nothing was stamped with the import time, because the
`categories` table has no `updated_at` (or any timestamp) column to
refresh. -/
theorem category_upsert_no_timestamp_cex :
    importRun "A" 99 ⟨none, some [⟨some "c1", some "A", some "meals", none, none⟩],
        none, none, none, none, none, none⟩
      ⟨[⟨"A", "alice", "a@x", "h", 1, 1⟩], [⟨"c1", "A", "recipes", none, none⟩],
       [], [], [], [], [], []⟩ =
    (⟨[⟨"A", "alice", "a@x", "h", 1, 1⟩], [⟨"c1", "A", "meals", none, none⟩],
      [], [], [], [], [], []⟩, true) := by
  rfl

/-- C9 counterexample: the importer processes attachments before posts
(`migration.py` executes the attachments branch at lines 293–309 and
the posts branch at lines 311–328), so the write trace of a document
holding one attachment and one post is attachment-then-post — which is
not ordered by the specification's stated dependency order (user →
categories → collections → collection details → posts → comments →
attachments → likes). -/
theorem import_order_attachments_before_posts_cex :
    importTables "A" 0 ⟨none, none, none, none,
        some [⟨some "a1", some "A", some "f", some "/u/f", some 1⟩],
        some [⟨some "p1", some "A", some "k1", some "hi", some 1, some 1⟩],
        none, none⟩ ⟨[], [], [], [], [], [], [], []⟩ =
      .ok (⟨[], [], [], [], [⟨"a1", "A", "/u/f", some "f", 1⟩],
            [⟨"p1", "A", "k1", some "hi", 1, 1⟩], [], []⟩,
           [⟨.attachments, "a1"⟩, ⟨.posts, "p1"⟩]) ∧
    ¬ List.Pairwise (fun a b => specRank a.table ≤ specRank b.table)
        [(⟨.attachments, "a1"⟩ : Event), ⟨.posts, "p1"⟩] := by
  constructor
  · rfl
  · decide

theorem pairwise_rank_append (rank : Event → Nat) (l₁ l₂ : List Event) (n : Nat)
    (h1 : ∀ e ∈ l₁, rank e = n)
    (h2 : List.Pairwise (fun a b => rank a ≤ rank b) l₂)
    (h3 : ∀ e ∈ l₂, n ≤ rank e) :
    List.Pairwise (fun a b => rank a ≤ rank b) (l₁ ++ l₂) ∧
      ∀ e ∈ l₁ ++ l₂, n ≤ rank e := by
  induction l₁ with
  | nil =>
    rw [List.nil_append]
    exact ⟨h2, h3⟩
  | cons a t ih =>
    obtain ⟨hp, hb⟩ := ih fun e he => h1 e (List.mem_cons_of_mem a he)
    have hra : rank a = n := h1 a (List.mem_cons_self a t)
    constructor
    · rw [List.cons_append]
      refine List.Pairwise.cons ?_ hp
      intro b hbmem
      rw [hra]
      exact hb b hbmem
    · intro e he
      rw [List.cons_append] at he
      rcases List.mem_cons.mp he with rfl | hmem
      · rw [hra]
      · exact hb e hmem

/-- C9 amended: the write events of every successful import are ordered
by the sequence the code actually executes — users, categories,
collections, collection details, attachments, posts, comments, likes —
with attachments processed between collection details and posts rather
than after comments as the specification's dependency order states. -/
theorem import_event_order_follows_code_order (c : String) (now : Nat) (d : Doc)
    (s s' : Store) (evs : List Event)
    (h : importTables c now d s = .ok (s', evs)) :
    List.Pairwise (fun a b => codeRank a.table ≤ codeRank b.table) evs := by
  obtain ⟨e1, e2, e3, e4, e5, e6, e7, e8, h1, h2, h3, h4, h5, h6, h7, h8, hevs⟩ :=
    importTables_ok_cases h
  subst hevs
  have t1 : ∀ e ∈ e1, e.table = .users :=
    runList_events (fun a dd a' evs' hs => userStep_events hs) h1
  have t2 : ∀ e ∈ e2, e.table = .categories :=
    runList_events (fun a dd a' evs' hs => stepT_events catTab hs) h2
  have t3 : ∀ e ∈ e3, e.table = .collections :=
    runList_events (fun a dd a' evs' hs => stepT_events collTab hs) h3
  have t4 : ∀ e ∈ e4, e.table = .collection_details :=
    runList_events (fun a dd a' evs' hs => stepT_events detTab hs) h4
  have t5 : ∀ e ∈ e5, e.table = .attachments :=
    runList_events (fun a dd a' evs' hs => stepT_events attTab hs) h5
  have t6 : ∀ e ∈ e6, e.table = .posts :=
    runList_events (fun a dd a' evs' hs => stepT_events postTab hs) h6
  have t7 : ∀ e ∈ e7, e.table = .comments :=
    runList_events (fun a dd a' evs' hs => stepT_events commTab hs) h7
  have t8 : ∀ e ∈ e8, e.table = .likes := by
    refine runList_events ?_ h8
    intro a dd a' evs' hs e he
    obtain ⟨i, _, _, _, _, _, _, _, _, _, hev, _⟩ := likeStep_ok_cases hs
    subst hev
    rw [List.mem_singleton.mp he]
  have p8 : List.Pairwise (fun a b => codeRank a.table ≤ codeRank b.table) e8 ∧
      ∀ e ∈ e8, 7 ≤ codeRank e.table := by
    have := pairwise_rank_append (fun e => codeRank e.table) e8 [] 7
      (fun e he => by show codeRank e.table = _; rw [t8 e he]; rfl) List.Pairwise.nil (fun e he => by cases he)
    rw [List.append_nil] at this
    exact this
  have p7 := pairwise_rank_append (fun e => codeRank e.table) e7 e8 6
    (fun e he => by show codeRank e.table = _; rw [t7 e he]; rfl) p8.1
    (fun e he => Nat.le_trans (by decide) (p8.2 e he))
  have p6 := pairwise_rank_append (fun e => codeRank e.table) e6 (e7 ++ e8) 5
    (fun e he => by show codeRank e.table = _; rw [t6 e he]; rfl) p7.1
    (fun e he => Nat.le_trans (by decide) (p7.2 e he))
  have p5 := pairwise_rank_append (fun e => codeRank e.table) e5 (e6 ++ (e7 ++ e8)) 4
    (fun e he => by show codeRank e.table = _; rw [t5 e he]; rfl) p6.1
    (fun e he => Nat.le_trans (by decide) (p6.2 e he))
  have p4 := pairwise_rank_append (fun e => codeRank e.table) e4 (e5 ++ (e6 ++ (e7 ++ e8))) 3
    (fun e he => by show codeRank e.table = _; rw [t4 e he]; rfl) p5.1
    (fun e he => Nat.le_trans (by decide) (p5.2 e he))
  have p3 := pairwise_rank_append (fun e => codeRank e.table) e3
      (e4 ++ (e5 ++ (e6 ++ (e7 ++ e8)))) 2
    (fun e he => by show codeRank e.table = _; rw [t3 e he]; rfl) p4.1
    (fun e he => Nat.le_trans (by decide) (p4.2 e he))
  have p2 := pairwise_rank_append (fun e => codeRank e.table) e2
      (e3 ++ (e4 ++ (e5 ++ (e6 ++ (e7 ++ e8))))) 1
    (fun e he => by show codeRank e.table = _; rw [t2 e he]; rfl) p3.1
    (fun e he => Nat.le_trans (by decide) (p3.2 e he))
  have p1 := pairwise_rank_append (fun e => codeRank e.table) e1
      (e2 ++ (e3 ++ (e4 ++ (e5 ++ (e6 ++ (e7 ++ e8)))))) 0
    (fun e he => by show codeRank e.table = _; rw [t1 e he]; rfl) p2.1
    (fun e he => Nat.le_trans (by decide) (p2.2 e he))
  exact p1.1


/-- C7 amended: an import-triggered upsert that updates an existing
record refreshes `updated_at` only for the entity types that have such
a column and set it in their `DO UPDATE` clause (collections, and in
the same way collection details, posts and comments); a Category
update rewrites `name`/`emoji`/`knowledge_base_id` in place without
creating a duplicate but refreshes nothing — the table has no
timestamp column — and an Attachment update rewrites only `url` and
`description`, leaving its sole timestamp `created_at` untouched. -/
theorem upsert_updated_at_behavior (s : Store) (c : String) (now : Nat) (hwf : WF s) :
    (∀ (x : CategoryRow) (nm : String) (em kb : Option String), x ∈ s.categories →
      (s.categories.any fun y => (y.id != x.id) && (y.user_id == x.user_id && y.name == nm))
          = false →
      importTables c now ⟨none, some [⟨some x.id, some x.user_id, some nm, em, kb⟩],
          none, none, none, none, none, none⟩ s =
        .ok ({ s with categories := s.categories.map (fun y =>
                 if y.id == x.id then
                   { y with name := nm, emoji := em, knowledge_base_id := kb } else y) },
             [⟨.categories, x.id⟩])) ∧
    (∀ (x : CollectionRow) (cat tags : Option String) (ca ua : Nat), x ∈ s.collections →
      importTables c now ⟨none, none,
          some [⟨some x.id, some x.user_id, cat, tags, some ca, some ua⟩],
          none, none, none, none, none⟩ s =
        .ok ({ s with collections := s.collections.map (fun y =>
                 if y.id == x.id then
                   { y with category_id := cat, tags := tags, updated_at := now } else y) },
             [⟨.collections, x.id⟩])) ∧
    (∀ (x : AttachmentRow) (fn : Option String) (fp : String) (ca : Nat),
        x ∈ s.attachments →
      importTables c now ⟨none, none, none, none,
          some [⟨some x.id, some x.user_id, fn, some fp, some ca⟩],
          none, none, none⟩ s =
        .ok ({ s with attachments := s.attachments.map (fun y =>
                 if y.id == x.id then
                   { y with url := fp, description := some (fn.getD "") } else y) },
             [⟨.attachments, x.id⟩])) := by
  obtain ⟨hu1, hu2, hu3, hc1, hc2, hl1, hd1, hd2, ha1, hp1, hcm1, hlk1, hlk2⟩ := hwf
  refine ⟨?_, ?_, ?_⟩
  · intro x nm em kb hx hfreshname
    have hstep : stepT catTab now s.categories ⟨some x.id, some x.user_id, some nm, em, kb⟩ =
        .ok (s.categories.map (fun y =>
               if y.id == x.id then
                 { y with name := nm, emoji := em, knowledge_base_id := kb } else y),
             [⟨.categories, x.id⟩]) := by
      unfold stepT
      have hmkr : catTab.mkr ⟨some x.id, some x.user_id, some nm, em, kb⟩ =
          .ok ⟨x.id, x.user_id, nm, em, kb⟩ := rfl
      rw [hmkr]
      dsimp only
      have hfind : s.categories.find?
          (fun z => catTab.key z == catTab.key (⟨x.id, x.user_id, nm, em, kb⟩ : CategoryRow))
          = some x := find?_key_of_mem hc1 hx
      rw [hfind]
      dsimp only
      have hchk : (s.categories.any fun y =>
          (catTab.key y != catTab.key (⟨x.id, x.user_id, nm, em, kb⟩ : CategoryRow)) &&
            secClash catTab.sec y
              (catTab.set now (⟨x.id, x.user_id, nm, em, kb⟩ : CategoryRow) x)) = false := by
        rw [List.any_eq_false]
        intro y hy hcontra
        rw [Bool.and_eq_true] at hcontra
        have hpair : (y.user_id, y.name) = (x.user_id, nm) := eq_of_beq hcontra.2
        have := List.any_eq_false.mp hfreshname y hy
        apply this
        rw [Bool.and_eq_true, Bool.and_eq_true]
        exact ⟨hcontra.1, beq_iff_eq.mpr (congrArg Prod.fst hpair),
               beq_iff_eq.mpr (congrArg Prod.snd hpair)⟩
      rw [hchk]
      simp only [Bool.false_eq_true, if_false]
      rfl
    have hnil : runList (stepT catTab now)
        (s.categories.map (fun y =>
          if y.id == x.id then { y with name := nm, emoji := em, knowledge_base_id := kb }
          else y)) [] =
        .ok (s.categories.map (fun y =>
          if y.id == x.id then { y with name := nm, emoji := em, knowledge_base_id := kb }
          else y), []) := rfl
    have h2 := runList_cons_of hstep hnil
    rw [List.append_nil] at h2
    exact importTables_eq
      (d := ⟨none, some [⟨some x.id, some x.user_id, some nm, em, kb⟩],
             none, none, none, none, none, none⟩)
      rfl h2 rfl rfl rfl rfl rfl rfl
  · intro x cat tags ca ua hx
    have hstep : stepT collTab now s.collections
        ⟨some x.id, some x.user_id, cat, tags, some ca, some ua⟩ =
        .ok (s.collections.map (fun y =>
               if y.id == x.id then
                 { y with category_id := cat, tags := tags, updated_at := now } else y),
             [⟨.collections, x.id⟩]) := by
      unfold stepT
      have hmkr : collTab.mkr ⟨some x.id, some x.user_id, cat, tags, some ca, some ua⟩ =
          .ok ⟨x.id, x.user_id, cat, tags, ca, ua⟩ := rfl
      rw [hmkr]
      dsimp only
      have hfind : s.collections.find?
          (fun z => collTab.key z ==
            collTab.key (⟨x.id, x.user_id, cat, tags, ca, ua⟩ : CollectionRow))
          = some x := find?_key_of_mem hl1 hx
      rw [hfind]
      dsimp only
      have hchk : (s.collections.any fun y =>
          (collTab.key y != collTab.key (⟨x.id, x.user_id, cat, tags, ca, ua⟩ : CollectionRow)) &&
            secClash collTab.sec y
              (collTab.set now (⟨x.id, x.user_id, cat, tags, ca, ua⟩ : CollectionRow) x)) = false := by
        rw [List.any_eq_false]
        intro y hy hcontra
        rw [Bool.and_eq_true] at hcontra
        have hfalse : secClash collTab.sec y
            (collTab.set now (⟨x.id, x.user_id, cat, tags, ca, ua⟩ : CollectionRow) x) = false := rfl
        rw [hfalse] at hcontra
        exact Bool.false_ne_true hcontra.2
      rw [hchk]
      simp only [Bool.false_eq_true, if_false]
      rfl
    have hnil : runList (stepT collTab now)
        (s.collections.map (fun y =>
          if y.id == x.id then { y with category_id := cat, tags := tags, updated_at := now }
          else y)) [] =
        .ok (s.collections.map (fun y =>
          if y.id == x.id then { y with category_id := cat, tags := tags, updated_at := now }
          else y), []) := rfl
    have h3 := runList_cons_of hstep hnil
    rw [List.append_nil] at h3
    exact importTables_eq
      (d := ⟨none, none, some [⟨some x.id, some x.user_id, cat, tags, some ca, some ua⟩],
             none, none, none, none, none⟩)
      rfl rfl h3 rfl rfl rfl rfl rfl
  · intro x fn fp ca hx
    have hstep : stepT attTab now s.attachments
        ⟨some x.id, some x.user_id, fn, some fp, some ca⟩ =
        .ok (s.attachments.map (fun y =>
               if y.id == x.id then
                 { y with url := fp, description := some (fn.getD "") } else y),
             [⟨.attachments, x.id⟩]) := by
      unfold stepT
      have hmkr : attTab.mkr ⟨some x.id, some x.user_id, fn, some fp, some ca⟩ =
          .ok ⟨x.id, x.user_id, fp, some (fn.getD ""), ca⟩ := rfl
      rw [hmkr]
      dsimp only
      have hfind : s.attachments.find?
          (fun z => attTab.key z ==
            attTab.key (⟨x.id, x.user_id, fp, some (fn.getD ""), ca⟩ : AttachmentRow))
          = some x := find?_key_of_mem ha1 hx
      rw [hfind]
      dsimp only
      have hchk : (s.attachments.any fun y =>
          (attTab.key y != attTab.key (⟨x.id, x.user_id, fp, some (fn.getD ""), ca⟩ : AttachmentRow)) &&
            secClash attTab.sec y
              (attTab.set now (⟨x.id, x.user_id, fp, some (fn.getD ""), ca⟩ : AttachmentRow) x)) = false := by
        rw [List.any_eq_false]
        intro y hy hcontra
        rw [Bool.and_eq_true] at hcontra
        have hfalse : secClash attTab.sec y
            (attTab.set now (⟨x.id, x.user_id, fp, some (fn.getD ""), ca⟩ : AttachmentRow) x) = false := rfl
        rw [hfalse] at hcontra
        exact Bool.false_ne_true hcontra.2
      rw [hchk]
      simp only [Bool.false_eq_true, if_false]
      rfl
    have hnil : runList (stepT attTab now)
        (s.attachments.map (fun y =>
          if y.id == x.id then { y with url := fp, description := some (fn.getD "") }
          else y)) [] =
        .ok (s.attachments.map (fun y =>
          if y.id == x.id then { y with url := fp, description := some (fn.getD "") }
          else y), []) := rfl
    have h5 := runList_cons_of hstep hnil
    rw [List.append_nil] at h5
    exact importTables_eq
      (d := ⟨none, none, none, none, some [⟨some x.id, some x.user_id, fn, some fp, some ca⟩],
             none, none, none⟩)
      rfl rfl rfl rfl h5 rfl rfl rfl

theorem round_trip_same (s : Store) (u : UserRow) (n₁ : Nat)
    (hwf : WF s) (hu : u ∈ s.users) :
    ∃ s₁ ev₁, importTables u.id n₁ (exportDoc u s) s = .ok (s₁, ev₁) ∧
      snap u.id s₁ = snap u.id s := by
  obtain ⟨hu1, hu2, hu3, hc1, hc2, hl1, hd1, hd2, ha1, hp1, hcm1, hlk1, hlk2⟩ := hwf
  have h1 : runList (userStep u.id n₁) s.users [userToDoc u] =
      .ok (s.users.map (fun x => if x.id == u.id then { x with updated_at := n₁ } else x),
           [⟨.users, u.id⟩]) := users_reimport n₁ u s.users hu1 hu2 hu3 hu
  have h2 : runList (stepT catTab n₁) s.categories
      ((s.categories.filter (fun c => c.user_id == u.id)).map catToDoc) =
      .ok (s.categories.map (fun y =>
             if (s.categories.filter (fun c => c.user_id == u.id)).any
                 (fun w => catTab.key w == catTab.key y) then catBump n₁ y else y),
           (s.categories.filter (fun c => c.user_id == u.id)).map
             (fun x => ⟨catTab.tk, catTab.key x⟩)) :=
    reimport_run catTab catToDoc (fun x => x) catBump
      (fun x => rfl) (fun x => rfl) (fun n x => rfl) (fun n x => rfl) (fun n x => rfl)
      n₁ _ s.categories hc1
      (SOK_of_secmap_nodup catTab (f := fun c => (c.user_id, c.name)) (fun x => rfl) hc2)
      (List.Nodup.sublist (List.Sublist.map _ (List.filter_sublist s.categories)) hc1)
      (fun x hx => (List.mem_filter.mp hx).1)
  have h3 : runList (stepT collTab n₁) s.collections
      ((s.collections.filter (fun c => c.user_id == u.id)).map collToDoc) =
      .ok (s.collections.map (fun y =>
             if (s.collections.filter (fun c => c.user_id == u.id)).any
                 (fun w => collTab.key w == collTab.key y) then collBump n₁ y else y),
           (s.collections.filter (fun c => c.user_id == u.id)).map
             (fun x => ⟨collTab.tk, collTab.key x⟩)) :=
    reimport_run collTab collToDoc (fun x => x) collBump
      (fun x => rfl) (fun x => rfl) (fun n x => rfl) (fun n x => rfl) (fun n x => rfl)
      n₁ _ s.collections hl1
      (SOK_of_no_sec collTab (fun x => rfl) s.collections)
      (List.Nodup.sublist (List.Sublist.map _ (List.filter_sublist s.collections)) hl1)
      (fun x hx => (List.mem_filter.mp hx).1)
  have h4 : runList (stepT detTab n₁) s.collection_details
      ((s.collection_details.filter (fun dd =>
          ((s.collections.filter (fun c => c.user_id == u.id)).map (·.id)).contains
            dd.collection_id)).map detToDoc) =
      .ok (s.collection_details.map (fun y =>
             if (s.collection_details.filter (fun dd =>
                  ((s.collections.filter (fun c => c.user_id == u.id)).map (·.id)).contains
                    dd.collection_id)).any
                 (fun w => detTab.key w == detTab.key y) then detBump n₁ y else y),
           (s.collection_details.filter (fun dd =>
                ((s.collections.filter (fun c => c.user_id == u.id)).map (·.id)).contains
                  dd.collection_id)).map
             (fun x => ⟨detTab.tk, detTab.key x⟩)) :=
    reimport_run detTab detToDoc (fun x => x) detBump
      (fun x => rfl) (fun x => rfl) (fun n x => rfl) (fun n x => rfl) (fun n x => rfl)
      n₁ _ s.collection_details hd1
      (SOK_of_secmap_nodup detTab (f := fun dd => (dd.collection_id, dd.key)) (fun x => rfl) hd2)
      (List.Nodup.sublist (List.Sublist.map _ (List.filter_sublist s.collection_details)) hd1)
      (fun x hx => (List.mem_filter.mp hx).1)
  have h5 : runList (stepT attTab n₁) s.attachments
      ((s.attachments.filter (fun a => a.user_id == u.id)).map attToDoc) =
      .ok (s.attachments.map (fun y =>
             if (s.attachments.filter (fun a => a.user_id == u.id)).any
                 (fun w => attTab.key w == attTab.key y) then attBump n₁ y else y),
           (s.attachments.filter (fun a => a.user_id == u.id)).map
             (fun x => ⟨attTab.tk, attTab.key x⟩)) :=
    reimport_run attTab attToDoc attNorm attBump
      (fun x => rfl) (fun x => rfl) (fun n x => rfl) (fun n x => rfl) (fun n x => rfl)
      n₁ _ s.attachments ha1
      (SOK_of_no_sec attTab (fun x => rfl) s.attachments)
      (List.Nodup.sublist (List.Sublist.map _ (List.filter_sublist s.attachments)) ha1)
      (fun x hx => (List.mem_filter.mp hx).1)
  have h6 : runList (stepT postTab n₁) s.posts
      ((s.posts.filter (fun p => p.user_id == u.id)).map postToDoc) =
      .ok (s.posts.map (fun y =>
             if (s.posts.filter (fun p => p.user_id == u.id)).any
                 (fun w => postTab.key w == postTab.key y) then postBump n₁ y else y),
           (s.posts.filter (fun p => p.user_id == u.id)).map
             (fun x => ⟨postTab.tk, postTab.key x⟩)) :=
    reimport_run postTab postToDoc postNorm postBump
      (fun x => rfl) (fun x => rfl) (fun n x => rfl) (fun n x => rfl) (fun n x => rfl)
      n₁ _ s.posts hp1
      (SOK_of_no_sec postTab (fun x => rfl) s.posts)
      (List.Nodup.sublist (List.Sublist.map _ (List.filter_sublist s.posts)) hp1)
      (fun x hx => (List.mem_filter.mp hx).1)
  have h7 : runList (stepT commTab n₁) s.comments
      ((s.comments.filter (fun c =>
          ((s.posts.filter (fun p => p.user_id == u.id)).map (·.id)).contains
            c.post_id)).map commToDoc) =
      .ok (s.comments.map (fun y =>
             if (s.comments.filter (fun c =>
                  ((s.posts.filter (fun p => p.user_id == u.id)).map (·.id)).contains
                    c.post_id)).any
                 (fun w => commTab.key w == commTab.key y) then commBump n₁ y else y),
           (s.comments.filter (fun c =>
                ((s.posts.filter (fun p => p.user_id == u.id)).map (·.id)).contains
                  c.post_id)).map
             (fun x => ⟨commTab.tk, commTab.key x⟩)) :=
    reimport_run commTab commToDoc (fun x => x) commBump
      (fun x => rfl) (fun x => rfl) (fun n x => rfl) (fun n x => rfl) (fun n x => rfl)
      n₁ _ s.comments hcm1
      (SOK_of_no_sec commTab (fun x => rfl) s.comments)
      (List.Nodup.sublist (List.Sublist.map _ (List.filter_sublist s.comments)) hcm1)
      (fun x hx => (List.mem_filter.mp hx).1)
  have h8 : runList likeStep s.likes
      ((s.likes.filter (fun l => l.user_id == u.id)).map likeToDoc) =
      .ok (s.likes,
           (s.likes.filter (fun l => l.user_id == u.id)).map (fun x => ⟨.likes, x.id⟩)) :=
    like_noop_run _ s.likes (fun x hx => (List.mem_filter.mp hx).1)
  refine ⟨_, _, importTables_eq h1 h2 h3 h4 h5 h6 h7 h8, ?_⟩
  -- the snapshot is unchanged: every per-row bump preserves the
  -- filter fields and the projected document-schema fields
  have e1 : ((s.users.map (fun x => if x.id == u.id then { x with updated_at := n₁ } else x)).filter
        (fun x => x.id == u.id)).map (fun x => (x.id, x.username, x.email)) =
      (s.users.filter (fun x => x.id == u.id)).map (fun x => (x.id, x.username, x.email)) :=
    filter_map_proj _ _ _ s.users
      (fun y => by by_cases hc : (y.id == u.id) = true
                   · rw [if_pos hc]
                   · rw [if_neg hc])
      (fun y => by by_cases hc : (y.id == u.id) = true
                   · rw [if_pos hc]
                   · rw [if_neg hc])
  have e2 : ((s.categories.map (fun y =>
        if (s.categories.filter (fun c => c.user_id == u.id)).any
            (fun w => catTab.key w == catTab.key y) then catBump n₁ y else y)).filter
        (fun c => c.user_id == u.id)).map (fun c => (c.id, c.name, c.emoji, c.knowledge_base_id)) =
      (s.categories.filter (fun c => c.user_id == u.id)).map
        (fun c => (c.id, c.name, c.emoji, c.knowledge_base_id)) :=
    filter_map_proj _ _ _ s.categories
      (fun y => by by_cases hc : ((s.categories.filter (fun c => c.user_id == u.id)).any
                       (fun w => catTab.key w == catTab.key y)) = true
                   · rw [if_pos hc]; rfl
                   · rw [if_neg hc])
      (fun y => by by_cases hc : ((s.categories.filter (fun c => c.user_id == u.id)).any
                       (fun w => catTab.key w == catTab.key y)) = true
                   · rw [if_pos hc]; rfl
                   · rw [if_neg hc])
  have e3 : ((s.collections.map (fun y =>
        if (s.collections.filter (fun c => c.user_id == u.id)).any
            (fun w => collTab.key w == collTab.key y) then collBump n₁ y else y)).filter
        (fun c => c.user_id == u.id)).map (fun c => (c.id, c.category_id, c.tags)) =
      (s.collections.filter (fun c => c.user_id == u.id)).map
        (fun c => (c.id, c.category_id, c.tags)) :=
    filter_map_proj _ _ _ s.collections
      (fun y => by by_cases hc : ((s.collections.filter (fun c => c.user_id == u.id)).any
                       (fun w => collTab.key w == collTab.key y)) = true
                   · rw [if_pos hc]; rfl
                   · rw [if_neg hc])
      (fun y => by by_cases hc : ((s.collections.filter (fun c => c.user_id == u.id)).any
                       (fun w => collTab.key w == collTab.key y)) = true
                   · rw [if_pos hc]; rfl
                   · rw [if_neg hc])
  have hcid : ((s.collections.map (fun y =>
        if (s.collections.filter (fun c => c.user_id == u.id)).any
            (fun w => collTab.key w == collTab.key y) then collBump n₁ y else y)).filter
        (fun c => c.user_id == u.id)).map (fun c => c.id) =
      (s.collections.filter (fun c => c.user_id == u.id)).map (fun c => c.id) :=
    filter_map_proj _ _ _ s.collections
      (fun y => by by_cases hc : ((s.collections.filter (fun c => c.user_id == u.id)).any
                       (fun w => collTab.key w == collTab.key y)) = true
                   · rw [if_pos hc]; rfl
                   · rw [if_neg hc])
      (fun y => by by_cases hc : ((s.collections.filter (fun c => c.user_id == u.id)).any
                       (fun w => collTab.key w == collTab.key y)) = true
                   · rw [if_pos hc]; rfl
                   · rw [if_neg hc])
  have e4a : ((s.collection_details.map (fun y =>
        if (s.collection_details.filter (fun dd =>
             ((s.collections.filter (fun c => c.user_id == u.id)).map (·.id)).contains
               dd.collection_id)).any
            (fun w => detTab.key w == detTab.key y) then detBump n₁ y else y)).filter
        (fun dd => (((s.collections.map (fun y =>
            if (s.collections.filter (fun c => c.user_id == u.id)).any
                (fun w => collTab.key w == collTab.key y) then collBump n₁ y else y)).filter
            (fun c => c.user_id == u.id)).map (fun c => c.id)).contains dd.collection_id)).map
        (fun dd => (dd.id, dd.collection_id, dd.key, dd.value)) =
      ((s.collection_details.map (fun y =>
        if (s.collection_details.filter (fun dd =>
             ((s.collections.filter (fun c => c.user_id == u.id)).map (·.id)).contains
               dd.collection_id)).any
            (fun w => detTab.key w == detTab.key y) then detBump n₁ y else y)).filter
        (fun dd => ((s.collections.filter (fun c => c.user_id == u.id)).map (fun c => c.id)).contains
          dd.collection_id)).map
        (fun dd => (dd.id, dd.collection_id, dd.key, dd.value)) := by
    rw [hcid]
  have e4b : ((s.collection_details.map (fun y =>
        if (s.collection_details.filter (fun dd =>
             ((s.collections.filter (fun c => c.user_id == u.id)).map (·.id)).contains
               dd.collection_id)).any
            (fun w => detTab.key w == detTab.key y) then detBump n₁ y else y)).filter
        (fun dd => ((s.collections.filter (fun c => c.user_id == u.id)).map (fun c => c.id)).contains
          dd.collection_id)).map
        (fun dd => (dd.id, dd.collection_id, dd.key, dd.value)) =
      (s.collection_details.filter
        (fun dd => ((s.collections.filter (fun c => c.user_id == u.id)).map (fun c => c.id)).contains
          dd.collection_id)).map
        (fun dd => (dd.id, dd.collection_id, dd.key, dd.value)) :=
    filter_map_proj _ _ _ s.collection_details
      (fun y => by by_cases hc : ((s.collection_details.filter (fun dd =>
                       ((s.collections.filter (fun c => c.user_id == u.id)).map (·.id)).contains
                         dd.collection_id)).any
                       (fun w => detTab.key w == detTab.key y)) = true
                   · rw [if_pos hc]; rfl
                   · rw [if_neg hc])
      (fun y => by by_cases hc : ((s.collection_details.filter (fun dd =>
                       ((s.collections.filter (fun c => c.user_id == u.id)).map (·.id)).contains
                         dd.collection_id)).any
                       (fun w => detTab.key w == detTab.key y)) = true
                   · rw [if_pos hc]; rfl
                   · rw [if_neg hc])
  have e5 : ((s.attachments.map (fun y =>
        if (s.attachments.filter (fun a => a.user_id == u.id)).any
            (fun w => attTab.key w == attTab.key y) then attBump n₁ y else y)).filter
        (fun a => a.user_id == u.id)).map (fun a => (a.id, a.url, a.description.getD "")) =
      (s.attachments.filter (fun a => a.user_id == u.id)).map
        (fun a => (a.id, a.url, a.description.getD "")) :=
    filter_map_proj _ _ _ s.attachments
      (fun y => by by_cases hc : ((s.attachments.filter (fun a => a.user_id == u.id)).any
                       (fun w => attTab.key w == attTab.key y)) = true
                   · rw [if_pos hc]; rfl
                   · rw [if_neg hc])
      (fun y => by by_cases hc : ((s.attachments.filter (fun a => a.user_id == u.id)).any
                       (fun w => attTab.key w == attTab.key y)) = true
                   · rw [if_pos hc]; rfl
                   · rw [if_neg hc])
  have e6 : ((s.posts.map (fun y =>
        if (s.posts.filter (fun p => p.user_id == u.id)).any
            (fun w => postTab.key w == postTab.key y) then postBump n₁ y else y)).filter
        (fun p => p.user_id == u.id)).map
        (fun p => (p.id, p.refer_collection_id, p.description.getD "")) =
      (s.posts.filter (fun p => p.user_id == u.id)).map
        (fun p => (p.id, p.refer_collection_id, p.description.getD "")) :=
    filter_map_proj _ _ _ s.posts
      (fun y => by by_cases hc : ((s.posts.filter (fun p => p.user_id == u.id)).any
                       (fun w => postTab.key w == postTab.key y)) = true
                   · rw [if_pos hc]; rfl
                   · rw [if_neg hc])
      (fun y => by by_cases hc : ((s.posts.filter (fun p => p.user_id == u.id)).any
                       (fun w => postTab.key w == postTab.key y)) = true
                   · rw [if_pos hc]; rfl
                   · rw [if_neg hc])
  have hpid : ((s.posts.map (fun y =>
        if (s.posts.filter (fun p => p.user_id == u.id)).any
            (fun w => postTab.key w == postTab.key y) then postBump n₁ y else y)).filter
        (fun p => p.user_id == u.id)).map (fun p => p.id) =
      (s.posts.filter (fun p => p.user_id == u.id)).map (fun p => p.id) :=
    filter_map_proj _ _ _ s.posts
      (fun y => by by_cases hc : ((s.posts.filter (fun p => p.user_id == u.id)).any
                       (fun w => postTab.key w == postTab.key y)) = true
                   · rw [if_pos hc]; rfl
                   · rw [if_neg hc])
      (fun y => by by_cases hc : ((s.posts.filter (fun p => p.user_id == u.id)).any
                       (fun w => postTab.key w == postTab.key y)) = true
                   · rw [if_pos hc]; rfl
                   · rw [if_neg hc])
  have e7a : ((s.comments.map (fun y =>
        if (s.comments.filter (fun c =>
             ((s.posts.filter (fun p => p.user_id == u.id)).map (·.id)).contains
               c.post_id)).any
            (fun w => commTab.key w == commTab.key y) then commBump n₁ y else y)).filter
        (fun c => (((s.posts.map (fun y =>
            if (s.posts.filter (fun p => p.user_id == u.id)).any
                (fun w => postTab.key w == postTab.key y) then postBump n₁ y else y)).filter
            (fun p => p.user_id == u.id)).map (fun p => p.id)).contains c.post_id)).map
        (fun c => (c.id, c.post_id, c.content)) =
      ((s.comments.map (fun y =>
        if (s.comments.filter (fun c =>
             ((s.posts.filter (fun p => p.user_id == u.id)).map (·.id)).contains
               c.post_id)).any
            (fun w => commTab.key w == commTab.key y) then commBump n₁ y else y)).filter
        (fun c => ((s.posts.filter (fun p => p.user_id == u.id)).map (fun p => p.id)).contains
          c.post_id)).map
        (fun c => (c.id, c.post_id, c.content)) := by
    rw [hpid]
  have e7b : ((s.comments.map (fun y =>
        if (s.comments.filter (fun c =>
             ((s.posts.filter (fun p => p.user_id == u.id)).map (·.id)).contains
               c.post_id)).any
            (fun w => commTab.key w == commTab.key y) then commBump n₁ y else y)).filter
        (fun c => ((s.posts.filter (fun p => p.user_id == u.id)).map (fun p => p.id)).contains
          c.post_id)).map
        (fun c => (c.id, c.post_id, c.content)) =
      (s.comments.filter
        (fun c => ((s.posts.filter (fun p => p.user_id == u.id)).map (fun p => p.id)).contains
          c.post_id)).map
        (fun c => (c.id, c.post_id, c.content)) :=
    filter_map_proj _ _ _ s.comments
      (fun y => by by_cases hc : ((s.comments.filter (fun c =>
                       ((s.posts.filter (fun p => p.user_id == u.id)).map (·.id)).contains
                         c.post_id)).any
                       (fun w => commTab.key w == commTab.key y)) = true
                   · rw [if_pos hc]; rfl
                   · rw [if_neg hc])
      (fun y => by by_cases hc : ((s.comments.filter (fun c =>
                       ((s.posts.filter (fun p => p.user_id == u.id)).map (·.id)).contains
                         c.post_id)).any
                       (fun w => commTab.key w == commTab.key y)) = true
                   · rw [if_pos hc]; rfl
                   · rw [if_neg hc])
  exact Snap.mk.injEq _ _ _ _ _ _ _ _ _ _ _ _ _ _ _ _ |>.mpr
    ⟨e1, e2, e3, e4a.trans e4b, e5, e6, e7a.trans e7b, rfl⟩

theorem round_trip_fresh (s : Store) (u : UserRow) (n₂ : Nat)
    (hwf : WF s) (hu : u ∈ s.users) :
    ∃ s₂ ev₂, importTables u.id n₂ (exportDoc u s) (freshStore u) = .ok (s₂, ev₂) ∧
      snap u.id s₂ = snap u.id s := by
  obtain ⟨hu1, hu2, hu3, hc1, hc2, hl1, hd1, hd2, ha1, hp1, hcm1, hlk1, hlk2⟩ := hwf
  have h1 : runList (userStep u.id n₂) [u] [userToDoc u] =
      .ok ([u].map (fun x => if x.id == u.id then { x with updated_at := n₂ } else x),
           [⟨.users, u.id⟩]) :=
    users_reimport n₂ u [u] (by simp) (by simp) (by simp) (List.mem_singleton.mpr rfl)
  -- categories
  have hmapidC : (s.categories.filter (fun c => c.user_id == u.id)).map (fun x => x) =
      s.categories.filter (fun c => c.user_id == u.id) := List.map_id' _
  have hrkc : ((s.categories.filter (fun c => c.user_id == u.id)).map (fun c => c.id)).Nodup :=
    List.Nodup.sublist (List.Sublist.map _ (List.filter_sublist s.categories)) hc1
  have hrsc : ((s.categories.filter (fun c => c.user_id == u.id)).map
      (fun c => (c.user_id, c.name))).Nodup :=
    List.Nodup.sublist (List.Sublist.map _ (List.filter_sublist s.categories)) hc2
  have h2 : runList (stepT catTab n₂) []
      ((s.categories.filter (fun c => c.user_id == u.id)).map catToDoc) =
      .ok (s.categories.filter (fun c => c.user_id == u.id),
           (s.categories.filter (fun c => c.user_id == u.id)).map
             (fun x => ⟨catTab.tk, catTab.key x⟩)) := by
    have hres := fresh_run catTab catToDoc (fun x => x)
      (fun x => rfl) (fun x => rfl) n₂ _ []
      (by rw [List.nil_append, hmapidC]; exact hrkc)
      (by rw [List.nil_append, hmapidC]
          exact SOK_of_secmap_nodup catTab (f := fun c => (c.user_id, c.name)) (fun x => rfl) hrsc)
    rw [List.nil_append, hmapidC] at hres
    exact hres
  -- collections
  have hmapidCl : (s.collections.filter (fun c => c.user_id == u.id)).map (fun x => x) =
      s.collections.filter (fun c => c.user_id == u.id) := List.map_id' _
  have hrkcl : ((s.collections.filter (fun c => c.user_id == u.id)).map (fun c => c.id)).Nodup :=
    List.Nodup.sublist (List.Sublist.map _ (List.filter_sublist s.collections)) hl1
  have h3 : runList (stepT collTab n₂) []
      ((s.collections.filter (fun c => c.user_id == u.id)).map collToDoc) =
      .ok (s.collections.filter (fun c => c.user_id == u.id),
           (s.collections.filter (fun c => c.user_id == u.id)).map
             (fun x => ⟨collTab.tk, collTab.key x⟩)) := by
    have hres := fresh_run collTab collToDoc (fun x => x)
      (fun x => rfl) (fun x => rfl) n₂ _ []
      (by rw [List.nil_append, hmapidCl]; exact hrkcl)
      (SOK_of_no_sec collTab (fun x => rfl) _)
    rw [List.nil_append, hmapidCl] at hres
    exact hres
  -- collection details
  have hmapidD : (s.collection_details.filter (fun dd =>
      ((s.collections.filter (fun c => c.user_id == u.id)).map (·.id)).contains
        dd.collection_id)).map (fun x => x) =
      s.collection_details.filter (fun dd =>
        ((s.collections.filter (fun c => c.user_id == u.id)).map (·.id)).contains
          dd.collection_id) := List.map_id' _
  have hrkd : ((s.collection_details.filter (fun dd =>
      ((s.collections.filter (fun c => c.user_id == u.id)).map (·.id)).contains
        dd.collection_id)).map (fun dd => dd.id)).Nodup :=
    List.Nodup.sublist (List.Sublist.map _ (List.filter_sublist s.collection_details)) hd1
  have hrsd : ((s.collection_details.filter (fun dd =>
      ((s.collections.filter (fun c => c.user_id == u.id)).map (·.id)).contains
        dd.collection_id)).map (fun dd => (dd.collection_id, dd.key))).Nodup :=
    List.Nodup.sublist (List.Sublist.map _ (List.filter_sublist s.collection_details)) hd2
  have h4 : runList (stepT detTab n₂) []
      ((s.collection_details.filter (fun dd =>
          ((s.collections.filter (fun c => c.user_id == u.id)).map (·.id)).contains
            dd.collection_id)).map detToDoc) =
      .ok (s.collection_details.filter (fun dd =>
             ((s.collections.filter (fun c => c.user_id == u.id)).map (·.id)).contains
               dd.collection_id),
           (s.collection_details.filter (fun dd =>
               ((s.collections.filter (fun c => c.user_id == u.id)).map (·.id)).contains
                 dd.collection_id)).map
             (fun x => ⟨detTab.tk, detTab.key x⟩)) := by
    have hres := fresh_run detTab detToDoc (fun x => x)
      (fun x => rfl) (fun x => rfl) n₂ _ []
      (by rw [List.nil_append, hmapidD]; exact hrkd)
      (by rw [List.nil_append, hmapidD]
          exact SOK_of_secmap_nodup detTab (f := fun dd => (dd.collection_id, dd.key))
            (fun x => rfl) hrsd)
    rw [List.nil_append, hmapidD] at hres
    exact hres
  -- attachments
  have hrka : ((s.attachments.filter (fun a => a.user_id == u.id)).map (fun a => a.id)).Nodup :=
    List.Nodup.sublist (List.Sublist.map _ (List.filter_sublist s.attachments)) ha1
  have h5 : runList (stepT attTab n₂) []
      ((s.attachments.filter (fun a => a.user_id == u.id)).map attToDoc) =
      .ok ((s.attachments.filter (fun a => a.user_id == u.id)).map attNorm,
           (s.attachments.filter (fun a => a.user_id == u.id)).map
             (fun x => ⟨attTab.tk, attTab.key x⟩)) := by
    have hres := fresh_run attTab attToDoc attNorm
      (fun x => rfl) (fun x => rfl) n₂ _ []
      (by rw [List.nil_append, List.map_map]; exact hrka)
      (SOK_of_no_sec attTab (fun x => rfl) _)
    rw [List.nil_append] at hres
    exact hres
  -- posts
  have hrkp : ((s.posts.filter (fun p => p.user_id == u.id)).map (fun p => p.id)).Nodup :=
    List.Nodup.sublist (List.Sublist.map _ (List.filter_sublist s.posts)) hp1
  have h6 : runList (stepT postTab n₂) []
      ((s.posts.filter (fun p => p.user_id == u.id)).map postToDoc) =
      .ok ((s.posts.filter (fun p => p.user_id == u.id)).map postNorm,
           (s.posts.filter (fun p => p.user_id == u.id)).map
             (fun x => ⟨postTab.tk, postTab.key x⟩)) := by
    have hres := fresh_run postTab postToDoc postNorm
      (fun x => rfl) (fun x => rfl) n₂ _ []
      (by rw [List.nil_append, List.map_map]; exact hrkp)
      (SOK_of_no_sec postTab (fun x => rfl) _)
    rw [List.nil_append] at hres
    exact hres
  -- comments
  have hmapidCm : (s.comments.filter (fun c =>
      ((s.posts.filter (fun p => p.user_id == u.id)).map (·.id)).contains
        c.post_id)).map (fun x => x) =
      s.comments.filter (fun c =>
        ((s.posts.filter (fun p => p.user_id == u.id)).map (·.id)).contains
          c.post_id) := List.map_id' _
  have hrkcm : ((s.comments.filter (fun c =>
      ((s.posts.filter (fun p => p.user_id == u.id)).map (·.id)).contains
        c.post_id)).map (fun c => c.id)).Nodup :=
    List.Nodup.sublist (List.Sublist.map _ (List.filter_sublist s.comments)) hcm1
  have h7 : runList (stepT commTab n₂) []
      ((s.comments.filter (fun c =>
          ((s.posts.filter (fun p => p.user_id == u.id)).map (·.id)).contains
            c.post_id)).map commToDoc) =
      .ok (s.comments.filter (fun c =>
             ((s.posts.filter (fun p => p.user_id == u.id)).map (·.id)).contains
               c.post_id),
           (s.comments.filter (fun c =>
               ((s.posts.filter (fun p => p.user_id == u.id)).map (·.id)).contains
                 c.post_id)).map
             (fun x => ⟨commTab.tk, commTab.key x⟩)) := by
    have hres := fresh_run commTab commToDoc (fun x => x)
      (fun x => rfl) (fun x => rfl) n₂ _ []
      (by rw [List.nil_append, hmapidCm]; exact hrkcm)
      (SOK_of_no_sec commTab (fun x => rfl) _)
    rw [List.nil_append, hmapidCm] at hres
    exact hres
  -- likes
  have hrkl : ((s.likes.filter (fun l => l.user_id == u.id)).map (fun l => l.id)).Nodup :=
    List.Nodup.sublist (List.Sublist.map _ (List.filter_sublist s.likes)) hlk1
  have hrsl : ((s.likes.filter (fun l => l.user_id == u.id)).map
      (fun l => (l.user_id, l.asset_id, l.asset_type))).Nodup :=
    List.Nodup.sublist (List.Sublist.map _ (List.filter_sublist s.likes)) hlk2
  have h8 : runList likeStep []
      ((s.likes.filter (fun l => l.user_id == u.id)).map likeToDoc) =
      .ok (s.likes.filter (fun l => l.user_id == u.id),
           (s.likes.filter (fun l => l.user_id == u.id)).map (fun x => ⟨.likes, x.id⟩)) := by
    have hres := like_fresh_run _ []
      (by rw [List.nil_append]; exact hrkl)
      (by rw [List.nil_append]; exact hrsl)
    rw [List.nil_append] at hres
    exact hres
  refine ⟨_, _, importTables_eq h1 h2 h3 h4 h5 h6 h7 h8, ?_⟩
  -- the snapshot of the freshly-populated store equals the source view
  have e1a : (([u].map (fun x => if x.id == u.id then { x with updated_at := n₂ } else x)).filter
        (fun x => x.id == u.id)).map (fun x => (x.id, x.username, x.email)) =
      ([u].filter (fun x => x.id == u.id)).map (fun x => (x.id, x.username, x.email)) :=
    filter_map_proj _ _ _ [u]
      (fun y => by by_cases hc : (y.id == u.id) = true
                   · rw [if_pos hc]
                   · rw [if_neg hc])
      (fun y => by by_cases hc : (y.id == u.id) = true
                   · rw [if_pos hc]
                   · rw [if_neg hc])
  have hukey : s.users.filter (fun x => x.id == u.id) = [u] := filter_key_of_mem hu1 hu
  have e1b : ([u].filter (fun x => x.id == u.id)).map (fun x => (x.id, x.username, x.email)) =
      (s.users.filter (fun x => x.id == u.id)).map (fun x => (x.id, x.username, x.email)) := by
    rw [hukey]
    simp
  have e2 : ((s.categories.filter (fun c => c.user_id == u.id)).filter
        (fun c => c.user_id == u.id)).map (fun c => (c.id, c.name, c.emoji, c.knowledge_base_id)) =
      (s.categories.filter (fun c => c.user_id == u.id)).map
        (fun c => (c.id, c.name, c.emoji, c.knowledge_base_id)) := by
    rw [filter_idem]
  have e3 : ((s.collections.filter (fun c => c.user_id == u.id)).filter
        (fun c => c.user_id == u.id)).map (fun c => (c.id, c.category_id, c.tags)) =
      (s.collections.filter (fun c => c.user_id == u.id)).map
        (fun c => (c.id, c.category_id, c.tags)) := by
    rw [filter_idem]
  have hcid2 : (((s.collections.filter (fun c => c.user_id == u.id)).filter
        (fun c => c.user_id == u.id)).map (·.id)) =
      (s.collections.filter (fun c => c.user_id == u.id)).map (·.id) := by
    rw [filter_idem]
  have e4a : ((s.collection_details.filter (fun dd =>
        ((s.collections.filter (fun c => c.user_id == u.id)).map (·.id)).contains
          dd.collection_id)).filter
        (fun dd => (((s.collections.filter (fun c => c.user_id == u.id)).filter
            (fun c => c.user_id == u.id)).map (·.id)).contains dd.collection_id)).map
        (fun dd => (dd.id, dd.collection_id, dd.key, dd.value)) =
      ((s.collection_details.filter (fun dd =>
        ((s.collections.filter (fun c => c.user_id == u.id)).map (·.id)).contains
          dd.collection_id)).filter
        (fun dd => ((s.collections.filter (fun c => c.user_id == u.id)).map (·.id)).contains
          dd.collection_id)).map
        (fun dd => (dd.id, dd.collection_id, dd.key, dd.value)) := by
    rw [hcid2]
  have e4b : ((s.collection_details.filter (fun dd =>
        ((s.collections.filter (fun c => c.user_id == u.id)).map (·.id)).contains
          dd.collection_id)).filter
        (fun dd => ((s.collections.filter (fun c => c.user_id == u.id)).map (·.id)).contains
          dd.collection_id)).map
        (fun dd => (dd.id, dd.collection_id, dd.key, dd.value)) =
      (s.collection_details.filter (fun dd =>
        ((s.collections.filter (fun c => c.user_id == u.id)).map (·.id)).contains
          dd.collection_id)).map
        (fun dd => (dd.id, dd.collection_id, dd.key, dd.value)) := by
    rw [filter_idem]
  have e5a : (((s.attachments.filter (fun a => a.user_id == u.id)).map attNorm).filter
        (fun a => a.user_id == u.id)).map (fun a => (a.id, a.url, a.description.getD "")) =
      ((s.attachments.filter (fun a => a.user_id == u.id)).filter
        (fun a => a.user_id == u.id)).map (fun a => (a.id, a.url, a.description.getD "")) :=
    filter_map_proj _ _ _ _ (fun y => rfl) (fun y => rfl)
  have e5b : ((s.attachments.filter (fun a => a.user_id == u.id)).filter
        (fun a => a.user_id == u.id)).map (fun a => (a.id, a.url, a.description.getD "")) =
      (s.attachments.filter (fun a => a.user_id == u.id)).map
        (fun a => (a.id, a.url, a.description.getD "")) := by
    rw [filter_idem]
  have e6a : (((s.posts.filter (fun p => p.user_id == u.id)).map postNorm).filter
        (fun p => p.user_id == u.id)).map
        (fun p => (p.id, p.refer_collection_id, p.description.getD "")) =
      ((s.posts.filter (fun p => p.user_id == u.id)).filter
        (fun p => p.user_id == u.id)).map
        (fun p => (p.id, p.refer_collection_id, p.description.getD "")) :=
    filter_map_proj _ _ _ _ (fun y => rfl) (fun y => rfl)
  have e6b : ((s.posts.filter (fun p => p.user_id == u.id)).filter
        (fun p => p.user_id == u.id)).map
        (fun p => (p.id, p.refer_collection_id, p.description.getD "")) =
      (s.posts.filter (fun p => p.user_id == u.id)).map
        (fun p => (p.id, p.refer_collection_id, p.description.getD "")) := by
    rw [filter_idem]
  have hpid2 : ((((s.posts.filter (fun p => p.user_id == u.id)).map postNorm).filter
        (fun p => p.user_id == u.id)).map (·.id)) =
      (s.posts.filter (fun p => p.user_id == u.id)).map (·.id) := by
    have ha : (((s.posts.filter (fun p => p.user_id == u.id)).map postNorm).filter
          (fun p => p.user_id == u.id)).map (·.id) =
        ((s.posts.filter (fun p => p.user_id == u.id)).filter
          (fun p => p.user_id == u.id)).map (·.id) :=
      filter_map_proj _ _ _ _ (fun y => rfl) (fun y => rfl)
    rw [ha, filter_idem]
  have e7a : ((s.comments.filter (fun c =>
        ((s.posts.filter (fun p => p.user_id == u.id)).map (·.id)).contains
          c.post_id)).filter
        (fun c => ((((s.posts.filter (fun p => p.user_id == u.id)).map postNorm).filter
            (fun p => p.user_id == u.id)).map (·.id)).contains c.post_id)).map
        (fun c => (c.id, c.post_id, c.content)) =
      ((s.comments.filter (fun c =>
        ((s.posts.filter (fun p => p.user_id == u.id)).map (·.id)).contains
          c.post_id)).filter
        (fun c => ((s.posts.filter (fun p => p.user_id == u.id)).map (·.id)).contains
          c.post_id)).map
        (fun c => (c.id, c.post_id, c.content)) := by
    rw [hpid2]
  have e7b : ((s.comments.filter (fun c =>
        ((s.posts.filter (fun p => p.user_id == u.id)).map (·.id)).contains
          c.post_id)).filter
        (fun c => ((s.posts.filter (fun p => p.user_id == u.id)).map (·.id)).contains
          c.post_id)).map
        (fun c => (c.id, c.post_id, c.content)) =
      (s.comments.filter (fun c =>
        ((s.posts.filter (fun p => p.user_id == u.id)).map (·.id)).contains
          c.post_id)).map
        (fun c => (c.id, c.post_id, c.content)) := by
    rw [filter_idem]
  have e8 : ((s.likes.filter (fun l => l.user_id == u.id)).filter
        (fun l => l.user_id == u.id)).map (fun l => (l.id, l.user_id, l.asset_id, l.asset_type)) =
      (s.likes.filter (fun l => l.user_id == u.id)).map
        (fun l => (l.id, l.user_id, l.asset_id, l.asset_type)) := by
    rw [filter_idem]
  exact Snap.mk.injEq _ _ _ _ _ _ _ _ _ _ _ _ _ _ _ _ |>.mpr
    ⟨e1a.trans e1b, e2, e3, e4a.trans e4b, e5a.trans e5b, e6a.trans e6b,
     e7a.trans e7b, e8⟩

/-- C5: exporting user `u` from store `s` and importing the resulting
document as `u` — into the same store or into a fresh store holding
only `u`'s account — succeeds and yields a store whose document-schema
view of `u`'s subgraph (every field the document schema defines;
timestamps excluded, as the import refreshes `updated_at`) equals the
original store's view. -/
theorem export_import_round_trip (s : Store) (u : UserRow) (n₁ n₂ : Nat)
    (hwf : WF s) (hu : u ∈ s.users) :
    (∃ s₁ ev₁, importTables u.id n₁ (exportDoc u s) s = .ok (s₁, ev₁) ∧
       snap u.id s₁ = snap u.id s) ∧
    (∃ s₂ ev₂, importTables u.id n₂ (exportDoc u s) (freshStore u) = .ok (s₂, ev₂) ∧
       snap u.id s₂ = snap u.id s) :=
  ⟨round_trip_same s u n₁ hwf hu, round_trip_fresh s u n₂ hwf hu⟩

theorem export_import_round_trip_witness :
    WF (⟨[⟨"u1", "alice", "a", "p", 1, 2⟩], [⟨"c1", "u1", "recipes", none, none⟩],
         [], [], [], [], [], []⟩ : Store) ∧
    (⟨"u1", "alice", "a", "p", 1, 2⟩ : UserRow) ∈
      (⟨[⟨"u1", "alice", "a", "p", 1, 2⟩], [⟨"c1", "u1", "recipes", none, none⟩],
        [], [], [], [], [], []⟩ : Store).users ∧
    ((∃ s₁ ev₁,
        importTables "u1" 7
          (exportDoc ⟨"u1", "alice", "a", "p", 1, 2⟩
            ⟨[⟨"u1", "alice", "a", "p", 1, 2⟩], [⟨"c1", "u1", "recipes", none, none⟩],
             [], [], [], [], [], []⟩)
          ⟨[⟨"u1", "alice", "a", "p", 1, 2⟩], [⟨"c1", "u1", "recipes", none, none⟩],
           [], [], [], [], [], []⟩ = .ok (s₁, ev₁) ∧
        snap "u1" s₁ =
          snap "u1" ⟨[⟨"u1", "alice", "a", "p", 1, 2⟩], [⟨"c1", "u1", "recipes", none, none⟩],
                     [], [], [], [], [], []⟩) ∧
     (∃ s₂ ev₂,
        importTables "u1" 8
          (exportDoc ⟨"u1", "alice", "a", "p", 1, 2⟩
            ⟨[⟨"u1", "alice", "a", "p", 1, 2⟩], [⟨"c1", "u1", "recipes", none, none⟩],
             [], [], [], [], [], []⟩)
          (freshStore ⟨"u1", "alice", "a", "p", 1, 2⟩) = .ok (s₂, ev₂) ∧
        snap "u1" s₂ =
          snap "u1" ⟨[⟨"u1", "alice", "a", "p", 1, 2⟩], [⟨"c1", "u1", "recipes", none, none⟩],
                     [], [], [], [], [], []⟩)) := by
  have hwf : WF (⟨[⟨"u1", "alice", "a", "p", 1, 2⟩], [⟨"c1", "u1", "recipes", none, none⟩],
      [], [], [], [], [], []⟩ : Store) :=
    ⟨by decide, by decide, by decide, by decide, by decide, by decide, by decide,
     by decide, by decide, by decide, by decide, by decide, by decide⟩
  have hm : (⟨"u1", "alice", "a", "p", 1, 2⟩ : UserRow) ∈
      (⟨[⟨"u1", "alice", "a", "p", 1, 2⟩], [⟨"c1", "u1", "recipes", none, none⟩],
        [], [], [], [], [], []⟩ : Store).users := List.mem_singleton.mpr rfl
  exact ⟨hwf, hm, export_import_round_trip _ _ 7 8 hwf hm⟩

/-- C6 counterexample: importing the same document twice does not
reproduce the state after one import — the second upsert refreshes the
collection's `updated_at`, so the claimed exact idempotence fails. -/
theorem double_import_changes_updated_at_cex :
    importTables "A" 10
      (⟨none, none, some [⟨some "k1", some "A", none, none, some 5, some 5⟩],
        none, none, none, none, none⟩ : Doc)
      (⟨[], [], [⟨"k1", "A", none, none, 5, 5⟩], [], [], [], [], []⟩ : Store) =
      .ok (⟨[], [], [⟨"k1", "A", none, none, 5, 10⟩], [], [], [], [], []⟩,
           [⟨.collections, "k1"⟩]) ∧
    importTables "A" 20
      (⟨none, none, some [⟨some "k1", some "A", none, none, some 5, some 5⟩],
        none, none, none, none, none⟩ : Doc)
      (⟨[], [], [⟨"k1", "A", none, none, 5, 10⟩], [], [], [], [], []⟩ : Store) =
      .ok (⟨[], [], [⟨"k1", "A", none, none, 5, 20⟩], [], [], [], [], []⟩,
           [⟨.collections, "k1"⟩]) ∧
    (⟨[], [], [⟨"k1", "A", none, none, 5, 20⟩], [], [], [], [], []⟩ : Store) ≠
      ⟨[], [], [⟨"k1", "A", none, none, 5, 10⟩], [], [], [], [], []⟩ :=
  ⟨rfl, rfl, by decide⟩

/-- C6 amended: over a well-formed store and a document whose records
have pairwise-distinct ids, a successful import can be repeated: the
second import also succeeds and changes nothing except refreshing
`updated_at` timestamps — the two resulting stores agree after erasing
every `updated_at` column (in particular no duplicate rows and no
duplicate likes are created). -/
theorem import_idempotent_up_to_timestamps (c : String) (n₁ n₂ : Nat) (d : Doc)
    (s s₁ : Store) (ev₁ : List Event) (hwf : WF s) (hnd : DocIdsNodup d)
    (h1 : importTables c n₁ d s = .ok (s₁, ev₁)) :
    ∃ s₂ ev₂, importTables c n₂ d s₁ = .ok (s₂, ev₂) ∧ eraseTs s₂ = eraseTs s₁ := by
  obtain ⟨hu1, hu2, hu3, hc1, hc2, hl1, hdd1, hdd2, ha1, hp1, hcm1, hlk1, hlk2⟩ := hwf
  obtain ⟨ndU, ndC, ndCl, ndD, ndA, ndP, ndCm, ndL⟩ := hnd
  obtain ⟨e1, e2, e3, e4, e5, e6, e7, e8, hr1, hr2, hr3, hr4, hr5, hr6, hr7, hr8, _⟩ :=
    importTables_ok_cases h1
  -- users
  obtain ⟨U₂, eU2, hU2, hUer⟩ :=
    users_second c n₁ n₂ (d.users.getD []) s.users s₁.users e1 ndU hu1 hr1
  -- categories
  have hsC : SOK catTab s.categories :=
    SOK_of_secmap_nodup catTab (f := fun x => (x.user_id, x.name)) (fun x => rfl) hc2
  have hpresC := runT_pres catTab (fun n r x => rfl) hr2 hc1 hsC
  have happC := run_establishes catTab catTsb (fun n r x => rfl) cat_dkey
    (fun n n' r x => rfl) (fun n' r => rfl) n₂ hc1 hr2 ndC
  obtain ⟨evsC, hrunC⟩ := applied_run catTab catTsb cat_dkey
    (fun n x => rfl) (fun n x => rfl) n₂ (d.categories.getD []) s₁.categories
    hpresC.1 hpresC.2 ndC happC
  -- collections
  have hpresCl := runT_pres collTab (fun n r x => rfl) hr3 hl1
    (SOK_of_no_sec collTab (fun x => rfl) s.collections)
  have happCl := run_establishes collTab collTsb (fun n r x => rfl) coll_dkey
    (fun n n' r x => rfl) (fun n' r => rfl) n₂ hl1 hr3 ndCl
  obtain ⟨evsCl, hrunCl⟩ := applied_run collTab collTsb coll_dkey
    (fun n x => rfl) (fun n x => rfl) n₂ (d.collections.getD []) s₁.collections
    hpresCl.1 (SOK_of_no_sec collTab (fun x => rfl) s₁.collections) ndCl happCl
  -- collection details
  have hsD : SOK detTab s.collection_details :=
    SOK_of_secmap_nodup detTab (f := fun x => (x.collection_id, x.key)) (fun x => rfl) hdd2
  have hpresD := runT_pres detTab (fun n r x => rfl) hr4 hdd1 hsD
  have happD := run_establishes detTab detTsb (fun n r x => rfl) det_dkey
    (fun n n' r x => rfl) (fun n' r => rfl) n₂ hdd1 hr4 ndD
  obtain ⟨evsD, hrunD⟩ := applied_run detTab detTsb det_dkey
    (fun n x => rfl) (fun n x => rfl) n₂ (d.collection_details.getD []) s₁.collection_details
    hpresD.1 hpresD.2 ndD happD
  -- attachments
  have hpresA := runT_pres attTab (fun n r x => rfl) hr5 ha1
    (SOK_of_no_sec attTab (fun x => rfl) s.attachments)
  have happA := run_establishes attTab attTsb (fun n r x => rfl) att_dkey
    (fun n n' r x => rfl) (fun n' r => rfl) n₂ ha1 hr5 ndA
  obtain ⟨evsA, hrunA⟩ := applied_run attTab attTsb att_dkey
    (fun n x => rfl) (fun n x => rfl) n₂ (d.attachments.getD []) s₁.attachments
    hpresA.1 (SOK_of_no_sec attTab (fun x => rfl) s₁.attachments) ndA happA
  -- posts
  have hpresP := runT_pres postTab (fun n r x => rfl) hr6 hp1
    (SOK_of_no_sec postTab (fun x => rfl) s.posts)
  have happP := run_establishes postTab postTsb (fun n r x => rfl) post_dkey
    (fun n n' r x => rfl) (fun n' r => rfl) n₂ hp1 hr6 ndP
  obtain ⟨evsP, hrunP⟩ := applied_run postTab postTsb post_dkey
    (fun n x => rfl) (fun n x => rfl) n₂ (d.posts.getD []) s₁.posts
    hpresP.1 (SOK_of_no_sec postTab (fun x => rfl) s₁.posts) ndP happP
  -- comments
  have hpresCm := runT_pres commTab (fun n r x => rfl) hr7 hcm1
    (SOK_of_no_sec commTab (fun x => rfl) s.comments)
  have happCm := run_establishes commTab commTsb (fun n r x => rfl) comm_dkey
    (fun n n' r x => rfl) (fun n' r => rfl) n₂ hcm1 hr7 ndCm
  obtain ⟨evsCm, hrunCm⟩ := applied_run commTab commTsb comm_dkey
    (fun n x => rfl) (fun n x => rfl) n₂ (d.comments.getD []) s₁.comments
    hpresCm.1 (SOK_of_no_sec commTab (fun x => rfl) s₁.comments) ndCm happCm
  -- likes
  obtain ⟨eL2, hL2⟩ := like_second hr8
  refine ⟨_, _, importTables_eq hU2 hrunC hrunCl hrunD hrunA hrunP hrunCm hL2, ?_⟩
  -- erased-timestamp equality of the two results
  have c2 : s₁.categories.map (fun y =>
      if (d.categories.getD []).any (fun dd => catTab.dkey dd == some (catTab.key y))
      then catTsb n₂ y else y) = s₁.categories := map_ite_self _ _
  have c3 : (s₁.collections.map (fun y =>
      if (d.collections.getD []).any (fun dd => collTab.dkey dd == some (collTab.key y))
      then collTsb n₂ y else y)).map upEraseColl = s₁.collections.map upEraseColl := by
    rw [List.map_map]
    refine List.map_congr_left fun y hy => ?_
    by_cases hc : ((d.collections.getD []).any
        (fun dd => collTab.dkey dd == some (collTab.key y))) = true
    · simp only [Function.comp_apply]
      rw [if_pos hc]
      rfl
    · simp only [Function.comp_apply]
      rw [if_neg hc]
  have c4 : (s₁.collection_details.map (fun y =>
      if (d.collection_details.getD []).any (fun dd => detTab.dkey dd == some (detTab.key y))
      then detTsb n₂ y else y)).map upEraseDet = s₁.collection_details.map upEraseDet := by
    rw [List.map_map]
    refine List.map_congr_left fun y hy => ?_
    by_cases hc : ((d.collection_details.getD []).any
        (fun dd => detTab.dkey dd == some (detTab.key y))) = true
    · simp only [Function.comp_apply]
      rw [if_pos hc]
      rfl
    · simp only [Function.comp_apply]
      rw [if_neg hc]
  have c5 : s₁.attachments.map (fun y =>
      if (d.attachments.getD []).any (fun dd => attTab.dkey dd == some (attTab.key y))
      then attTsb n₂ y else y) = s₁.attachments := map_ite_self _ _
  have c6 : (s₁.posts.map (fun y =>
      if (d.posts.getD []).any (fun dd => postTab.dkey dd == some (postTab.key y))
      then postTsb n₂ y else y)).map upErasePost = s₁.posts.map upErasePost := by
    rw [List.map_map]
    refine List.map_congr_left fun y hy => ?_
    by_cases hc : ((d.posts.getD []).any
        (fun dd => postTab.dkey dd == some (postTab.key y))) = true
    · simp only [Function.comp_apply]
      rw [if_pos hc]
      rfl
    · simp only [Function.comp_apply]
      rw [if_neg hc]
  have c7 : (s₁.comments.map (fun y =>
      if (d.comments.getD []).any (fun dd => commTab.dkey dd == some (commTab.key y))
      then commTsb n₂ y else y)).map upEraseComm = s₁.comments.map upEraseComm := by
    rw [List.map_map]
    refine List.map_congr_left fun y hy => ?_
    by_cases hc : ((d.comments.getD []).any
        (fun dd => commTab.dkey dd == some (commTab.key y))) = true
    · simp only [Function.comp_apply]
      rw [if_pos hc]
      rfl
    · simp only [Function.comp_apply]
      rw [if_neg hc]
  exact Store.mk.injEq _ _ _ _ _ _ _ _ _ _ _ _ _ _ _ _ |>.mpr
    ⟨hUer, c2, c3, c4, c5, c6, c7, rfl⟩

theorem import_idempotent_up_to_timestamps_witness :
    WF (⟨[], [], [⟨"k1", "A", none, none, 5, 5⟩], [], [], [], [], []⟩ : Store) ∧
    DocIdsNodup (⟨none, none, some [⟨some "k1", some "A", none, none, some 5, some 5⟩],
                  none, none, none, none, none⟩ : Doc) ∧
    importTables "A" 10
      (⟨none, none, some [⟨some "k1", some "A", none, none, some 5, some 5⟩],
        none, none, none, none, none⟩ : Doc)
      (⟨[], [], [⟨"k1", "A", none, none, 5, 5⟩], [], [], [], [], []⟩ : Store) =
      .ok (⟨[], [], [⟨"k1", "A", none, none, 5, 10⟩], [], [], [], [], []⟩,
           [⟨.collections, "k1"⟩]) ∧
    (∃ s₂ ev₂,
      importTables "A" 20
        (⟨none, none, some [⟨some "k1", some "A", none, none, some 5, some 5⟩],
          none, none, none, none, none⟩ : Doc)
        (⟨[], [], [⟨"k1", "A", none, none, 5, 10⟩], [], [], [], [], []⟩ : Store) =
        .ok (s₂, ev₂) ∧
      eraseTs s₂ =
        eraseTs ⟨[], [], [⟨"k1", "A", none, none, 5, 10⟩], [], [], [], [], []⟩) := by
  have hwf : WF (⟨[], [], [⟨"k1", "A", none, none, 5, 5⟩], [], [], [], [], []⟩ : Store) :=
    ⟨by decide, by decide, by decide, by decide, by decide, by decide, by decide,
     by decide, by decide, by decide, by decide, by decide, by decide⟩
  have hnd : DocIdsNodup (⟨none, none,
      some [⟨some "k1", some "A", none, none, some 5, some 5⟩],
      none, none, none, none, none⟩ : Doc) :=
    ⟨by decide, by decide, by decide, by decide, by decide, by decide, by decide, by decide⟩
  have h1 : importTables "A" 10
      (⟨none, none, some [⟨some "k1", some "A", none, none, some 5, some 5⟩],
        none, none, none, none, none⟩ : Doc)
      (⟨[], [], [⟨"k1", "A", none, none, 5, 5⟩], [], [], [], [], []⟩ : Store) =
      .ok (⟨[], [], [⟨"k1", "A", none, none, 5, 10⟩], [], [], [], [], []⟩,
           [⟨.collections, "k1"⟩]) := rfl
  exact ⟨hwf, hnd, h1,
    import_idempotent_up_to_timestamps "A" 10 20 _ _ _ _ hwf hnd h1⟩

theorem import_skips_foreign_user_record_witness :
    (⟨some "B", some "bob", some "b"⟩ : UserDoc).id = some "B" ∧ ("B" : String) ≠ "A" ∧
    importTables "A" 3
      ⟨some [⟨some "B", some "bob", some "b"⟩], none, none, none, none, none, none, none⟩
      (⟨[⟨"B", "bob", "b", "h", 1, 1⟩], [], [], [], [], [], [], []⟩ : Store) =
      .ok (⟨[⟨"B", "bob", "b", "h", 1, 1⟩], [], [], [], [], [], [], []⟩, []) := by
  have hj : (⟨some "B", some "bob", some "b"⟩ : UserDoc).id = some "B" := rfl
  have hne : ("B" : String) ≠ "A" := by decide
  exact ⟨hj, hne, import_skips_foreign_user_record _ "A" 3 _ "B" hj hne⟩

theorem import_rollback_on_malformed_record_witness :
    (⟨none, some "A", some "x", none, none⟩ : CategoryDoc).id = none ∧
    importRun "A" 0
      ⟨none, some [⟨some "c0", some "A", some "ok", none, none⟩,
                   ⟨none, some "A", some "x", none, none⟩],
       none, none, none, none, none, none⟩
      (⟨[], [], [], [], [], [], [], []⟩ : Store) =
      (⟨[], [], [], [], [], [], [], []⟩, false) :=
  ⟨rfl, import_rollback_on_malformed_record "A" 0 _
    [⟨some "c0", some "A", some "ok", none, none⟩] [] _ rfl⟩

theorem conflicting_like_silently_dropped_witness :
    (⟨some "l2", some "u1", some "p1", some .post, some 2⟩ : LikeDoc).id = some "l2" ∧
    ((⟨[], [], [], [], [], [], [],
        [⟨"l1", "u1", "p1", .post, 1⟩]⟩ : Store).likes.any fun y => y.id == "l2" ||
       (y.user_id == "u1" && y.asset_id == "p1" && y.asset_type == AssetType.post)) = true ∧
    importTables "A" 0 ⟨none, none, none, none, none, none, none,
        some [⟨some "l2", some "u1", some "p1", some .post, some 2⟩]⟩
      (⟨[], [], [], [], [], [], [], [⟨"l1", "u1", "p1", .post, 1⟩]⟩ : Store) =
      .ok (⟨[], [], [], [], [], [], [], [⟨"l1", "u1", "p1", .post, 1⟩]⟩,
           [⟨.likes, "l2"⟩]) := by
  have hconf : ((⟨[], [], [], [], [], [], [],
      [⟨"l1", "u1", "p1", .post, 1⟩]⟩ : Store).likes.any fun y => y.id == "l2" ||
        (y.user_id == "u1" && y.asset_id == "p1" && y.asset_type == AssetType.post)) =
      true := by decide
  exact ⟨rfl, hconf,
    conflicting_like_silently_dropped _ "A" 0 _ "l2" "u1" "p1" .post 2
      rfl rfl rfl rfl rfl hconf⟩

theorem import_no_ownership_check_outside_users_witness :
    (⟨some "c1", some "B", some "x", none, none⟩ : CategoryDoc).id = some "c1" ∧
    (⟨some "c1", some "B", some "x", none, none⟩ : CategoryDoc).user_id = some "B" ∧
    (⟨some "c1", some "B", some "x", none, none⟩ : CategoryDoc).name = some "x" ∧
    ("B" : String) ≠ "A" ∧
    importTables "A" 0
      ⟨none, some [⟨some "c1", some "B", some "x", none, none⟩],
       none, none, none, none, none, none⟩
      (⟨[], [], [], [], [], [], [], []⟩ : Store) =
      .ok ({ (⟨[], [], [], [], [], [], [], []⟩ : Store) with categories :=
               ([] : List CategoryRow) ++ [⟨"c1", "B", "x", none, none⟩] },
           [⟨.categories, "c1"⟩]) := by
  have hne : ("B" : String) ≠ "A" := by decide
  exact ⟨rfl, rfl, rfl, hne,
    import_no_ownership_check_outside_users _ "A" 0 _ "c1" "B" "x"
      rfl rfl rfl hne rfl rfl⟩

theorem upsert_updated_at_behavior_witness :
    WF (⟨[], [], [⟨"k1", "A", none, none, 5, 5⟩], [], [], [], [], []⟩ : Store) ∧
    importTables "A" 9
      ⟨none, none, some [⟨some "k1", some "A", some "cat9", some "t", some 5, some 5⟩],
       none, none, none, none, none⟩
      (⟨[], [], [⟨"k1", "A", none, none, 5, 5⟩], [], [], [], [], []⟩ : Store) =
      .ok ({ (⟨[], [], [⟨"k1", "A", none, none, 5, 5⟩], [], [], [], [], []⟩ : Store) with
               collections := [⟨"k1", "A", none, none, 5, 5⟩].map (fun y =>
                 if y.id == "k1" then
                   { y with category_id := some "cat9", tags := some "t",
                            updated_at := 9 } else y) },
           [⟨.collections, "k1"⟩]) := by
  have hwf : WF (⟨[], [], [⟨"k1", "A", none, none, 5, 5⟩], [], [], [], [], []⟩ : Store) :=
    ⟨by decide, by decide, by decide, by decide, by decide, by decide, by decide,
     by decide, by decide, by decide, by decide, by decide, by decide⟩
  exact ⟨hwf, (upsert_updated_at_behavior _ "A" 9 hwf).2.1
    ⟨"k1", "A", none, none, 5, 5⟩ (some "cat9") (some "t") 5 5
    (List.mem_singleton.mpr rfl)⟩

theorem import_event_order_follows_code_order_witness :
    importTables "A" 0 ⟨none, none, none, none,
        some [⟨some "a1", some "A", some "f", some "/u/f", some 1⟩],
        some [⟨some "p1", some "A", some "k1", some "hi", some 1, some 1⟩],
        none, none⟩ (⟨[], [], [], [], [], [], [], []⟩ : Store) =
      .ok (⟨[], [], [], [], [⟨"a1", "A", "/u/f", some "f", 1⟩],
            [⟨"p1", "A", "k1", some "hi", 1, 1⟩], [], []⟩,
           [⟨.attachments, "a1"⟩, ⟨.posts, "p1"⟩]) ∧
    List.Pairwise (fun a b => codeRank a.table ≤ codeRank b.table)
      [(⟨.attachments, "a1"⟩ : Event), ⟨.posts, "p1"⟩] := by
  have h : importTables "A" 0 ⟨none, none, none, none,
      some [⟨some "a1", some "A", some "f", some "/u/f", some 1⟩],
      some [⟨some "p1", some "A", some "k1", some "hi", some 1, some 1⟩],
      none, none⟩ (⟨[], [], [], [], [], [], [], []⟩ : Store) =
      .ok (⟨[], [], [], [], [⟨"a1", "A", "/u/f", some "f", 1⟩],
            [⟨"p1", "A", "k1", some "hi", 1, 1⟩], [], []⟩,
           [⟨.attachments, "a1"⟩, ⟨.posts, "p1"⟩]) := rfl
  exact ⟨h, import_event_order_follows_code_order "A" 0 _ _ _ _ h⟩
